import Mathlib

/-!
Verification development for the Mirror Kernel of the gcosmos consensus engine.

The Go source is embedded shallowly:

- Go maps keyed by block-hash strings become association lists
  (`List (String × α)`), read through `alookup` and written through `aset`;
  reading a missing `uint32` entry yields the Go zero value, modelled by
  `getN`.  Go map iteration is modelled by list order; all properties proved
  below are insensitive to that order.
- Version counters (`uint32`, `uint64` in Go) become `Nat`.  No code path in
  the embedded slice depends on wraparound, and the source itself documents
  the counters as never approaching the word size, so modular reduction is
  omitted.
- The kernel goroutine's side effects (log statements, store writes, channel
  sends, fetch cancellations) are reified as an explicit `Effect` list
  returned next to the new state.  Store writes are modelled as succeeding;
  in the source a failed store write only logs and continues.
- Go panics become `Except.error`; values are otherwise pure.
- The buffered fetch-requests channel is modelled by `FetchChanFree`, the
  number of free buffer slots, carried in the kernel state; a non-blocking
  send succeeds exactly when a slot is free.
- Cryptographic proof objects (`gcrypto.CommonMessageSignatureProof`) are
  opaque in the source; they are modelled by their signature bitset, the only
  part the kernel inspects.

Definitions translated from files of the repository carry the source
position; definitions whose body is not part of the provided sources are
marked `Modelled from the spec:` and follow the specification text.
-/

/-- Association-list lookup, modelling a read of a Go map. -/
def alookup {α : Type} : List (String × α) → String → Option α
  | [], _ => none
  | (k, v) :: rest, key => if k = key then some v else alookup rest key

/-- Association-list write, modelling a write to a Go map: replaces the
binding if the key is present, otherwise appends it. -/
def aset {α : Type} : List (String × α) → String → α → List (String × α)
  | [], key, v => [(key, v)]
  | (k, w) :: rest, key, v =>
      if k = key then (key, v) :: rest else (k, w) :: aset rest key v

/-- Read of a Go `map[string]uint32`: a missing key yields the zero value. -/
def getN (m : List (String × Nat)) (key : String) : Nat :=
  (alookup m key).getD 0

/-- A validator: a public key (opaque identifier) and its voting power. -/
structure Validator where
  pubKey : String
  power : Nat
deriving DecidableEq, Repr

/-- Modelled from the spec: an aggregate signature proof, reduced to the
bitset identifying which validators have signed (the only part of
gcrypto.CommonMessageSignatureProof that the kernel slice inspects).
The bitset is the list of signed public keys. -/
structure SigProof where
  sigs : List String
deriving DecidableEq, Repr

/-- The empty aggregate proof: no validator has signed. -/
def SigProof.empty : SigProof := ⟨[]⟩

/-- A sparse previous-commit proof carried in a block header:
for each block hash, the signatures being attested, plus the round and the
public-key hash they are keyed to. -/
structure CommitProof where
  Round : Nat
  PubKeyHash : String
  Proofs : List (String × List String)
deriving DecidableEq, Repr

/-- A block, with the fields the kernel slice reads. -/
structure Block where
  Hash : String
  PrevBlockHash : String
  Height : Nat
  Validators : List Validator
  NextValidators : List Validator
  PrevCommitProof : CommitProof
deriving DecidableEq, Repr

/-- A proposed block (tmconsensus.ProposedBlock). -/
structure ProposedBlock where
  Block : Block
  Round : Nat
  ProposerPubKey : String
  Signature : String
deriving DecidableEq, Repr

/-- Modelled from the spec: the derived VoteSummary of a round view --
available power, totals for prevotes and precommits, per-hash power, and the
most-voted hash for each vote kind. -/
structure VoteSummary where
  AvailablePower : Nat
  TotalPrevotePower : Nat
  TotalPrecommitPower : Nat
  PrevoteBlockPower : List (String × Nat)
  PrecommitBlockPower : List (String × Nat)
  MostVotedPrevoteHash : String
  MostVotedPrecommitHash : String
deriving DecidableEq, Repr

/-- Modelled from the spec: a fresh, all-zero vote summary
(tmconsensus.NewVoteSummary). -/
def NewVoteSummary : VoteSummary :=
  { AvailablePower := 0
    TotalPrevotePower := 0
    TotalPrecommitPower := 0
    PrevoteBlockPower := []
    PrecommitBlockPower := []
    MostVotedPrevoteHash := ""
    MostVotedPrecommitHash := "" }

/-- Sum of the voting powers of a validator set. -/
def totalPower (vals : List Validator) : Nat :=
  (vals.map Validator.power).sum

/-- Modelled from the spec: the voting power attested by one proof under a
validator set -- the sum of the powers of the validators whose bits are set
in the proof. -/
def proofPower (vals : List Validator) (p : SigProof) : Nat :=
  ((vals.filter (fun v => p.sigs.contains v.pubKey)).map Validator.power).sum

/-- Modelled from the spec: per-block voting power for a proof map. -/
def blockPowers (vals : List Validator) (proofs : List (String × SigProof)) :
    List (String × Nat) :=
  proofs.map (fun kv => (kv.1, proofPower vals kv.2))

/-- Modelled from the spec: the entry of maximal power in a power map
(ties and the empty map resolve to the nil hash with power zero). -/
def mostVotedEntry : List (String × Nat) → String × Nat
  | [] => ("", 0)
  | kv :: rest =>
      let best := mostVotedEntry rest
      if kv.2 > best.2 then kv else best

/-- Modelled from the spec: the most-voted block hash of a power map. -/
def mostVotedHash (powers : List (String × Nat)) : String :=
  (mostVotedEntry powers).1

/-- Modelled from the spec: recompute the prevote side of a vote summary
from the validator set and the prevote proof map
(VoteSummary.SetPrevotePowers). -/
def SetPrevotePowers (vals : List Validator)
    (proofs : List (String × SigProof)) (vs : VoteSummary) : VoteSummary :=
  let powers := blockPowers vals proofs
  { vs with
    TotalPrevotePower := (powers.map Prod.snd).sum
    PrevoteBlockPower := powers
    MostVotedPrevoteHash := mostVotedHash powers }

/-- Modelled from the spec: recompute the precommit side of a vote summary
from the validator set and the precommit proof map
(VoteSummary.SetPrecommitPowers). -/
def SetPrecommitPowers (vals : List Validator)
    (proofs : List (String × SigProof)) (vs : VoteSummary) : VoteSummary :=
  let powers := blockPowers vals proofs
  { vs with
    TotalPrecommitPower := (powers.map Prod.snd).sum
    PrecommitBlockPower := powers
    MostVotedPrecommitHash := mostVotedHash powers }

/-- Modelled from the spec: set the available power of a vote summary from a
validator set (VoteSummary.SetAvailablePower). -/
def SetAvailablePower (vals : List Validator) (vs : VoteSummary) : VoteSummary :=
  { vs with AvailablePower := totalPower vals }

/-- Modelled from the spec: reset all derived data of a vote summary
(VoteSummary.Reset). -/
def VoteSummary.Reset (_vs : VoteSummary) : VoteSummary := NewVoteSummary

/-- Modelled from the spec: reset the per-round derived data of a vote
summary while keeping the available power of the unchanged validator set
(VoteSummary.ResetForSameHeight). -/
def VoteSummary.ResetForSameHeight (vs : VoteSummary) : VoteSummary :=
  { NewVoteSummary with AvailablePower := vs.AvailablePower }

/-- The observed state of one round (tmconsensus.RoundView, part_001:14-27). -/
structure RoundView where
  Height : Nat
  Round : Nat
  Validators : List Validator
  ValidatorPubKeyHash : String
  ValidatorVotePowerHash : String
  ProposedBlocks : List ProposedBlock
  PrevoteProofs : List (String × SigProof)
  PrecommitProofs : List (String × SigProof)
  VoteSummary : VoteSummary
deriving DecidableEq, Repr

/-- RoundView.ResetForSameHeight (part_001:89-99): clears the round,
proposed blocks, and vote information; keeps height, validators, and the
validator hashes. -/
def RoundView.ResetForSameHeight (v : RoundView) : RoundView :=
  { v with
    Round := 0
    ProposedBlocks := []
    PrevoteProofs := []
    PrecommitProofs := []
    VoteSummary := v.VoteSummary.ResetForSameHeight }

/-- RoundView.Reset (part_001:69-82): zeroes every field, via
ResetForSameHeight for the per-round data. -/
def RoundView.Reset (v : RoundView) : RoundView :=
  let v1 := { v with
    Height := 0
    Validators := []
    ValidatorPubKeyHash := ""
    ValidatorVotePowerHash := "" }
  let v2 := v1.ResetForSameHeight
  { v2 with VoteSummary := v2.VoteSummary.Reset }

/-- A RoundView extended with version information
(tmconsensus.VersionedRoundView, part_001:107-136). -/
structure VersionedRoundView extends RoundView where
  Version : Nat
  PrevoteVersion : Nat
  PrecommitVersion : Nat
  PrevoteBlockVersions : List (String × Nat)
  PrecommitBlockVersions : List (String × Nat)
deriving DecidableEq, Repr

/-- VersionedRoundView.resetVersions (part_001:176-183). -/
def VersionedRoundView.resetVersions (v : VersionedRoundView) : VersionedRoundView :=
  { v with
    Version := 0
    PrevoteVersion := 0
    PrecommitVersion := 0
    PrevoteBlockVersions := []
    PrecommitBlockVersions := [] }

/-- VersionedRoundView.ResetForSameHeight (part_001:168-172):
RoundView.ResetForSameHeight plus resetVersions. -/
def VersionedRoundView.ResetForSameHeight (v : VersionedRoundView) : VersionedRoundView :=
  ({ v with toRoundView := v.toRoundView.ResetForSameHeight }).resetVersions

/-- VersionedRoundView.Reset (part_001:157-161). -/
def VersionedRoundView.Reset (v : VersionedRoundView) : VersionedRoundView :=
  ({ v with toRoundView := v.toRoundView.Reset }).resetVersions

/-- The all-zero VersionedRoundView (the Go zero value). -/
def VersionedRoundView.zero : VersionedRoundView :=
  { Height := 0
    Round := 0
    Validators := []
    ValidatorPubKeyHash := ""
    ValidatorVotePowerHash := ""
    ProposedBlocks := []
    PrevoteProofs := []
    PrecommitProofs := []
    VoteSummary := NewVoteSummary
    Version := 0
    PrevoteVersion := 0
    PrecommitVersion := 0
    PrevoteBlockVersions := []
    PrecommitBlockVersions := [] }

/-- Modelled from the spec: a View is a VersionedRoundView plus an Outgoing
tracker -- a cached copy of the last-published VRV and a sent flag. -/
structure View where
  VRV : VersionedRoundView
  OutgoingVRV : VersionedRoundView
  OutgoingSent : Bool
deriving DecidableEq, Repr

/-- Modelled from the spec: updateOutgoing clones the current state into the
outgoing cache and clears the sent flag, so the view is again offered on its
output channels. -/
def View.UpdateOutgoing (v : View) : View :=
  { v with OutgoingVRV := v.VRV, OutgoingSent := false }

/-- Modelled from the spec: markSent sets the sent flag so no further
emission occurs until the next change. -/
def View.MarkSent (v : View) : View :=
  { v with OutgoingSent := true }

/-- Identifier of one of the three tracked views. -/
inductive ViewID
  | Voting
  | Committing
  | NextRound
deriving DecidableEq, Repr

/-- Result of a view lookup: either a found view identifier or a
not-found status (tmi.ViewLookupStatus). -/
inductive ViewLookup
  | found (id : ViewID)
  | beforeCommitting
  | wrongCommit
  | orphaned
  | futureNotYetTracked
deriving DecidableEq, Repr

/-- The mutable kernel state (tmi.kState); the buffered fetch-requests
channel's free slots and the state-machine view bindings are carried here as
well, as they are part of the world the kernel mutates and consults. -/
structure kState where
  Committing : View
  Voting : View
  NextRound : View
  CommittingBlock : Block
  InFlightFetchPBs : List String
  NilVotedRound : Option VersionedRoundView
  StateMachineH : Nat
  StateMachineR : Nat
  FetchChanFree : Nat
deriving DecidableEq, Repr

/-- The view selected by an identifier. -/
def kState.viewOf (s : kState) : ViewID → View
  | .Voting => s.Voting
  | .Committing => s.Committing
  | .NextRound => s.NextRound

/-- Replace the view selected by an identifier. -/
def kState.setView (s : kState) : ViewID → View → kState
  | .Voting, v => { s with Voting := v }
  | .Committing, v => { s with Committing := v }
  | .NextRound, v => { s with NextRound := v }

/-- Modelled from the spec: kState.FindView resolves a height and round to
one of the tracked views.  An exact match on the Voting, NextRound, or
Committing coordinates is Found; a height below the committing height is
BeforeCommitting; another round at the committing height is WrongCommit; an
earlier round at the voting height is Orphaned; anything else is not yet
tracked. -/
def kState.FindView (s : kState) (h r : Nat) : ViewLookup :=
  if h = s.Voting.VRV.Height ∧ r = s.Voting.VRV.Round then .found .Voting
  else if h = s.NextRound.VRV.Height ∧ r = s.NextRound.VRV.Round then .found .NextRound
  else if h = s.Committing.VRV.Height ∧ r = s.Committing.VRV.Round then .found .Committing
  else if h < s.Committing.VRV.Height then .beforeCommitting
  else if h = s.Committing.VRV.Height then .wrongCommit
  else if h = s.Voting.VRV.Height ∧ r < s.Voting.VRV.Round then .orphaned
  else .futureNotYetTracked

/-- Modelled from the spec: ByzantineMajority(P) = floor(2P/3) + 1. -/
def ByzantineMajority (p : Nat) : Nat := 2 * p / 3 + 1

/-- Modelled from the spec: ByzantineMinority(P) = floor(P/3) + 1. -/
def ByzantineMinority (p : Nat) : Nat := p / 3 + 1

/-- Modelled from the spec: a vote distribution -- per-block and total
available voting power for a proof map under a validator set
(tmi.newVoteDistribution). -/
structure voteDistribution where
  AvailableVotePower : Nat
  BlockVotePower : List (String × Nat)
deriving DecidableEq, Repr

/-- Modelled from the spec: build a fresh vote distribution keyed to the
given validators. -/
def newVoteDistribution (proofs : List (String × SigProof))
    (vals : List Validator) : voteDistribution :=
  { AvailableVotePower := totalPower vals
    BlockVotePower := blockPowers vals proofs }

/-- Result code for a vote-ingest request (tmi.AddVoteResult). -/
inductive AddVoteResult
  | Accepted
  | Conflict
  | OutOfDate
deriving DecidableEq, Repr

/-- One observable side effect of a kernel operation: a log statement, a
store write, a channel send, or a fetch cancellation. -/
inductive Effect
  | cancelFetch (hash : String)
  | logDroppedPB (h r : Nat)
  | saveProposedBlock (pb : ProposedBlock)
  | overwritePrevoteProofs (h r : Nat) (proofs : List (String × SigProof))
  | overwritePrecommitProofs (h r : Nat) (proofs : List (String × SigProof))
  | reply (res : AddVoteResult)
  | logWrongCommitTodo
  | fetchRequest (h : Nat) (hash : String)
  | logBlockedFetch (h r : Nat) (hash : String)
  | logShiftedRound100Pct (h oldRound : Nat)
  | logShiftedRoundNilPrecommit (h oldRound : Nat)
  | logShiftedRoundMinorityPrecommit (h oldRound : Nat)
  | logShiftedRoundMinorityPrevote (h oldRound : Nat)
  | logStuck (h r : Nat) (hash : String) (fetchInProgress : Bool)
  | logCommittedBlock (height : Nat) (hash : String)
  | forceSendStateMachine (vrv : VersionedRoundView)
  | saveBlock (block : Block) (proof : CommitProof)
deriving DecidableEq, Repr

/-- Whether an effect is a write to a durable store. -/
def Effect.isPersist : Effect → Bool
  | .saveProposedBlock _ => true
  | .overwritePrevoteProofs _ _ _ => true
  | .overwritePrecommitProofs _ _ _ => true
  | .saveBlock _ _ => true
  | _ => false

/-- Whether an effect is a log statement. -/
def Effect.isLog : Effect → Bool
  | .logDroppedPB _ _ => true
  | .logWrongCommitTodo => true
  | .logBlockedFetch _ _ _ => true
  | .logShiftedRound100Pct _ _ => true
  | .logShiftedRoundNilPrecommit _ _ => true
  | .logShiftedRoundMinorityPrecommit _ _ => true
  | .logShiftedRoundMinorityPrevote _ _ => true
  | .logStuck _ _ _ _ => true
  | .logCommittedBlock _ _ => true
  | _ => false

/-- One vote update of an ingest request (tmi.VoteUpdate): the merged proof
and the per-hash version the caller merged against. -/
structure VoteUpdate where
  Proof : SigProof
  PrevVersion : Nat
deriving DecidableEq, Repr

/-- An add-prevote request (tmi.AddPrevoteRequest).  HasResponse records
whether the caller supplied a (1-buffered) response channel. -/
structure AddPrevoteRequest where
  H : Nat
  R : Nat
  PrevoteUpdates : List (String × VoteUpdate)
  HasResponse : Bool
deriving DecidableEq, Repr

/-- An add-precommit request (tmi.AddPrecommitRequest). -/
structure AddPrecommitRequest where
  H : Nat
  R : Nat
  PrecommitUpdates : List (String × VoteUpdate)
  HasResponse : Bool
deriving DecidableEq, Repr

/-- The reply effect, emitted only when a response channel is present
(kernel.go 494-496, 597-599). -/
def replyEff (hasResponse : Bool) (res : AddVoteResult) : List Effect :=
  if hasResponse then [Effect.reply res] else []

/-- Static kernel configuration consulted by the embedded operations. -/
structure KernelCfg where
  initialHeight : Nat
deriving DecidableEq, Repr

/-- Modelled from the spec: getInitialNilProofs (kernel.go 1168-1204) builds
the two empty aggregate proofs for the nil prevote and nil precommit of a
round.  The cryptographic sign-bytes and key hashing cannot fail in the
model, so only the empty bitsets remain. -/
def getInitialNilProofs (_h _r : Nat) (_vals : List Validator) :
    SigProof × SigProof :=
  (SigProof.empty, SigProof.empty)

/-- The vote-update installation loop shared by addPrevote (kernel.go
453-467) and addPrecommit (kernel.go 555-570): an update is installed
exactly when its PrevVersion matches the current per-hash version, and each
installation bumps that per-hash version; returns the new proof map, the new
version map, allAccepted, and anyAdded. -/
def applyVoteUpdates (proofs : List (String × SigProof))
    (versions : List (String × Nat)) :
    List (String × VoteUpdate) →
      List (String × SigProof) × List (String × Nat) × Bool × Bool
  | [] => (proofs, versions, true, false)
  | (blockHash, u) :: rest =>
      if u.PrevVersion = getN versions blockHash then
        let proofs1 := aset proofs blockHash u.Proof
        let versions1 := aset versions blockHash (getN versions blockHash + 1)
        let r := applyVoteUpdates proofs1 versions1 rest
        (r.1, r.2.1, r.2.2.1, true)
      else
        let r := applyVoteUpdates proofs versions rest
        (r.1, r.2.1, false, r.2.2.2)

/-- The send loop of checkMissingPBs (kernel.go 958-990): for each missing
hash at or above the minority threshold, non-blockingly send a fetch request
and record the cancellation, or log when the channel has no free slot. -/
def sendFetches (h r minPow : Nat) (powers : List (String × Nat)) :
    kState → List String → kState × List Effect
  | s, [] => (s, [])
  | s, hash :: rest =>
      if getN powers hash < minPow then
        sendFetches h r minPow powers s rest
      else if 0 < s.FetchChanFree then
        let s1 := { s with
          InFlightFetchPBs := s.InFlightFetchPBs ++ [hash]
          FetchChanFree := s.FetchChanFree - 1 }
        let rec1 := sendFetches h r minPow powers s1 rest
        (rec1.1, Effect.fetchRequest h hash :: rec1.2)
      else
        let rec1 := sendFetches h r minPow powers s rest
        (rec1.1, Effect.logBlockedFetch h r hash :: rec1.2)

/-- The non-nil hashes of a proof map with no matching proposed block in the
Voting view (kernel.go 898-914). -/
def missingPBList (s : kState) (proofs : List (String × SigProof)) :
    List String :=
  let havePBHashes := s.Voting.VRV.ProposedBlocks.map (fun pb => pb.Block.Hash)
  (proofs.map Prod.fst).filter
    (fun bh => ¬(bh = "" ∨ havePBHashes.contains bh))

/-- The missing proposed blocks of a proof map that have no fetch already in
flight (kernel.go 924-946). -/
def pendingFetchList (s : kState) (proofs : List (String × SigProof)) :
    List String :=
  (missingPBList s proofs).filter
    (fun hash => ¬ s.InFlightFetchPBs.contains hash)

/-- The pending fetches whose voting power under a fresh vote distribution
reaches the Byzantine minority: exactly the hashes for which checkMissingPBs
attempts a fetch-request send. -/
def eligibleFetchList (s : kState) (proofs : List (String × SigProof)) :
    List String :=
  (pendingFetchList s proofs).filter
    (fun hash =>
      ByzantineMinority (totalPower s.Voting.VRV.Validators) ≤
        getN (blockPowers s.Voting.VRV.Validators proofs) hash)

/-- checkMissingPBs (kernel.go 897-991): issue a fetch request for every
missing proposed block whose voting power under a fresh distribution reaches
the Byzantine minority and which has no fetch already in flight.  The
running context is modelled as not cancelled. -/
def checkMissingPBs (s : kState) (proofs : List (String × SigProof)) :
    kState × List Effect :=
  let missingPBs := missingPBList s proofs
  if missingPBs.isEmpty then (s, [])
  else
    let missingPBs2 := pendingFetchList s proofs
    if missingPBs2.isEmpty then (s, [])
    else
      let dist := newVoteDistribution proofs s.Voting.VRV.Validators
      let minPow := ByzantineMinority dist.AvailableVotePower
      sendFetches s.Voting.VRV.Height s.Voting.VRV.Round minPow
        dist.BlockVotePower s missingPBs2

/-- advanceVotingRound (kernel.go 994-1042): force-send the pre-advance view
to the state machine if it is still on this round, stash the pre-advance
snapshot in NilVotedRound, swap the Voting and NextRound VRV fields, zero
the new Voting version, reset NextRound for the same height at the next
round, and re-initialize its nil proofs.  getInitialNilProofs cannot fail in
the model, so no error path remains. -/
def advanceVotingRound (s : kState) : kState × List Effect :=
  let forceEffs :=
    if s.StateMachineH = s.Voting.VRV.Height ∧ s.StateMachineR = s.Voting.VRV.Round then
      [Effect.forceSendStateMachine s.Voting.VRV]
    else []
  let vClone := s.Voting.VRV
  let newVotingVRV := { s.NextRound.VRV with Version := 0 }
  let voting1 := View.UpdateOutgoing { s.Voting with VRV := newVotingVRV }
  let nrrv0 := s.Voting.VRV.ResetForSameHeight
  let nrrv1 := { nrrv0 with Round := newVotingVRV.Round + 1 }
  let nilProofs := getInitialNilProofs nrrv1.Height nrrv1.Round nrrv1.Validators
  let nrrv2 := { nrrv1 with
    PrevoteProofs := aset nrrv1.PrevoteProofs "" nilProofs.1
    PrecommitProofs := aset nrrv1.PrecommitProofs "" nilProofs.2 }
  let nextRound1 := View.UpdateOutgoing { s.NextRound with VRV := nrrv2 }
  ({ s with
      NilVotedRound := some vClone
      Voting := voting1
      NextRound := nextRound1 },
   forceEffs)

/-- First proposed block with the given hash (the search loops of
kernel.go 677-683 and 704-710). -/
def firstPBWithHash (pbs : List ProposedBlock) (hash : String) :
    Option ProposedBlock :=
  pbs.find? (fun pb => pb.Block.Hash = hash)

/-- checkVotingPrecommitViewShift (kernel.go 629-807): if precommit
consensus is reached on the voting round, advance the round (nil majority or
100 percent of votes without majority), stay stuck when the committing block
is not yet available, or commit: shift Voting into Committing, build the new
Voting and NextRound views for the next height, and persist the block that
just finished committing unless still at the bootstrap height.  Errors model
the panics of the source; the store and scheme error returns cannot occur in
the model. -/
def checkVotingPrecommitViewShift (k : KernelCfg) (s : kState) :
    Except String (kState × List Effect) :=
  let vrv := s.Voting.VRV
  let vs := vrv.VoteSummary
  let oldHeight := vrv.Height
  let oldRound := vrv.Round
  let maj := ByzantineMajority vs.AvailablePower
  let committingHash := vs.MostVotedPrecommitHash
  let highestPow := getN vs.PrecommitBlockPower committingHash
  if highestPow < maj then
    if vs.TotalPrecommitPower = vs.AvailablePower then
      let adv := advanceVotingRound s
      .ok (adv.1, adv.2 ++ [Effect.logShiftedRound100Pct oldHeight oldRound])
    else
      .ok (s, [])
  else if committingHash = "" then
    let adv := advanceVotingRound s
    .ok (adv.1, adv.2 ++ [Effect.logShiftedRoundNilPrecommit oldHeight oldRound])
  else
    let hasPB := vrv.ProposedBlocks.any (fun pb => pb.Block.Hash = committingHash)
    if ¬ hasPB then
      .ok (s, [Effect.logStuck vrv.Height vrv.Round committingHash
                (s.InFlightFetchPBs.contains committingHash)])
    else
      let committedBlock := s.CommittingBlock
      let committing1 := View.UpdateOutgoing s.Voting
      match firstPBWithHash committing1.VRV.ProposedBlocks committingHash with
      | none => .error "BUG: missed update; need to fetch missing proposed block"
      | some pb =>
          let committingBlock := pb.Block
          let newHeight := committing1.VRV.Height + 1
          let votingVals := committingBlock.NextValidators
          let nilProofs := getInitialNilProofs newHeight 0 votingVals
          let votingVRV : VersionedRoundView := {
            Height := newHeight
            Round := 0
            Validators := votingVals
            ValidatorPubKeyHash := committing1.VRV.ValidatorPubKeyHash
            ValidatorVotePowerHash := committing1.VRV.ValidatorVotePowerHash
            ProposedBlocks := []
            PrevoteProofs := aset [] "" nilProofs.1
            PrecommitProofs := aset [] "" nilProofs.2
            VoteSummary := SetAvailablePower votingVals NewVoteSummary
            Version := 0
            PrevoteVersion := 1
            PrecommitVersion := 1
            PrevoteBlockVersions := []
            PrecommitBlockVersions := [] }
          let voting1 := View.UpdateOutgoing
            { VRV := votingVRV
              OutgoingVRV := VersionedRoundView.zero
              OutgoingSent := false }
          let nrReset := s.NextRound.VRV.Reset
          let nilProofs1 := getInitialNilProofs newHeight 1 votingVals
          let nrVRV := { nrReset with
            Height := newHeight
            Round := 1
            Validators := votingVals
            ValidatorPubKeyHash := votingVRV.ValidatorPubKeyHash
            ValidatorVotePowerHash := votingVRV.ValidatorVotePowerHash
            PrevoteVersion := 1
            PrecommitVersion := 1
            VoteSummary := { nrReset.VoteSummary with
              AvailablePower := votingVRV.VoteSummary.AvailablePower }
            PrevoteProofs := aset nrReset.PrevoteProofs "" nilProofs1.1
            PrecommitProofs := aset nrReset.PrecommitProofs "" nilProofs1.2 }
          let nextRound1 := View.UpdateOutgoing { s.NextRound with VRV := nrVRV }
          let s1 := { s with
            Committing := committing1
            CommittingBlock := committingBlock
            Voting := voting1
            NextRound := nextRound1 }
          if s1.Voting.VRV.Height ≤ k.initialHeight + 1 then
            .ok (s1, [])
          else
            .ok (s1,
              [Effect.saveBlock committedBlock committingBlock.PrevCommitProof,
               Effect.logCommittedBlock committedBlock.Height committedBlock.Hash])

/-- checkNextRoundPrecommitViewShift (kernel.go 812-849): when total
precommit power in NextRound reaches the Byzantine minority, advance the
voting round; a majority for a single block there is an unhandled panic in
the source; a minority for a single block triggers a missing-PB check. -/
def checkNextRoundPrecommitViewShift (s : kState) :
    Except String (kState × List Effect) :=
  let vrv := s.NextRound.VRV
  let oldHeight := vrv.Height
  let oldRound := vrv.Round
  let vs := vrv.VoteSummary
  let minPow := ByzantineMinority vs.AvailablePower
  if vs.TotalPrecommitPower < minPow then
    .ok (s, [])
  else
    let adv := advanceVotingRound s
    let s1 := adv.1
    let effs1 := adv.2 ++ [Effect.logShiftedRoundMinorityPrecommit oldHeight oldRound]
    let maj := ByzantineMajority vs.AvailablePower
    let maxPow := getN vs.PrecommitBlockPower vs.MostVotedPrecommitHash
    if maxPow ≥ maj then
      .error "TODO: handle a majority precommit for NextRound"
    else if maxPow ≥ minPow then
      let fetch := checkMissingPBs s1 s1.Voting.VRV.PrecommitProofs
      .ok (fetch.1, effs1 ++ fetch.2)
    else
      .ok (s1, effs1)

/-- checkPrevoteViewShift (kernel.go 854-890): when total prevote power in
NextRound reaches the Byzantine minority, advance the voting round; when a
single block holds at least a minority of prevotes, also check for missing
proposed blocks. -/
def checkPrevoteViewShift (s : kState) (vID : ViewID) :
    Except String (kState × List Effect) :=
  match vID with
  | .NextRound =>
      let vrv := s.NextRound.VRV
      let oldHeight := vrv.Height
      let oldRound := vrv.Round
      let vs := vrv.VoteSummary
      let minPow := ByzantineMinority vs.AvailablePower
      if vs.TotalPrevotePower < minPow then
        .ok (s, [])
      else
        let adv := advanceVotingRound s
        let s1 := adv.1
        let effs1 := adv.2 ++ [Effect.logShiftedRoundMinorityPrevote oldHeight oldRound]
        if getN vs.PrevoteBlockPower vs.MostVotedPrevoteHash ≥ minPow then
          let fetch := checkMissingPBs s1 s1.Voting.VRV.PrevoteProofs
          .ok (fetch.1, effs1 ++ fetch.2)
        else
          .ok (s1, effs1)
  | _ => .error "BUG: unhandled view ID in checkPrevoteViewShift"

/-- Result of installing one batch of vote updates into a view. -/
structure IngestRes where
  view : View
  effs : List Effect
  allAccepted : Bool
  anyAdded : Bool
deriving DecidableEq, Repr

/-- Install the prevote updates into a view and do the bookkeeping of
kernel.go 450-483: apply the update loop, then if anything was added,
recompute the prevote vote summary, refresh the outgoing view, and persist
the prevote proof map. -/
def ingestPrevotes (reqH reqR : Nat) (view : View)
    (updates : List (String × VoteUpdate)) : IngestRes :=
  let vrv := view.VRV
  let r := applyVoteUpdates vrv.PrevoteProofs vrv.PrevoteBlockVersions updates
  let newProofs := r.1
  let newVers := r.2.1
  let allAccepted := r.2.2.1
  let anyAdded := r.2.2.2
  let vrv1 := { vrv with
    toRoundView := { vrv.toRoundView with PrevoteProofs := newProofs }
    PrevoteBlockVersions := newVers }
  let vrv2 :=
    if anyAdded then
      { vrv1 with toRoundView := { vrv1.toRoundView with
          VoteSummary := SetPrevotePowers vrv1.Validators newProofs vrv1.VoteSummary } }
    else vrv1
  { view :=
      if anyAdded then View.UpdateOutgoing { view with VRV := vrv2 }
      else { view with VRV := vrv2 }
    effs :=
      if anyAdded then [Effect.overwritePrevoteProofs reqH reqR newProofs] else []
    allAccepted := allAccepted
    anyAdded := anyAdded }

/-- Install the precommit updates into a view and do the bookkeeping of
kernel.go 553-586; the precommit twin of ingestPrevotes. -/
def ingestPrecommits (reqH reqR : Nat) (view : View)
    (updates : List (String × VoteUpdate)) : IngestRes :=
  let vrv := view.VRV
  let r := applyVoteUpdates vrv.PrecommitProofs vrv.PrecommitBlockVersions updates
  let newProofs := r.1
  let newVers := r.2.1
  let allAccepted := r.2.2.1
  let anyAdded := r.2.2.2
  let vrv1 := { vrv with
    toRoundView := { vrv.toRoundView with PrecommitProofs := newProofs }
    PrecommitBlockVersions := newVers }
  let vrv2 :=
    if anyAdded then
      { vrv1 with toRoundView := { vrv1.toRoundView with
          VoteSummary := SetPrecommitPowers vrv1.Validators newProofs vrv1.VoteSummary } }
    else vrv1
  { view :=
      if anyAdded then View.UpdateOutgoing { view with VRV := vrv2 }
      else { view with VRV := vrv2 }
    effs :=
      if anyAdded then [Effect.overwritePrecommitProofs reqH reqR newProofs] else []
    allAccepted := allAccepted
    anyAdded := anyAdded }

/-- addPrevote (kernel.go 418-511): locate the view, reply OutOfDate for
votes before the committing height or into an orphaned or wrong-commit
round, install the updates with the optimistic-concurrency check, reply
Accepted or Conflict, check for missing proposed blocks, and for an accepted
prevote into NextRound check the prevote view shift. -/
def addPrevote (s : kState) (req : AddPrevoteRequest) :
    Except String (kState × List Effect) :=
  match s.FindView req.H req.R with
  | .beforeCommitting => .ok (s, replyEff req.HasResponse .OutOfDate)
  | .orphaned => .ok (s, replyEff req.HasResponse .OutOfDate)
  | .wrongCommit =>
      .ok (s, Effect.logWrongCommitTodo :: replyEff req.HasResponse .OutOfDate)
  | .futureNotYetTracked =>
      .error "TODO: handle unexpected view status when adding prevote"
  | .found vID =>
      let view := s.viewOf vID
      let ing := ingestPrevotes req.H req.R view req.PrevoteUpdates
      let s1 := s.setView vID ing.view
      let res := if ing.allAccepted then AddVoteResult.Accepted else AddVoteResult.Conflict
      let effs1 := ing.effs ++ replyEff req.HasResponse res
      let fetch := checkMissingPBs s1 ing.view.VRV.PrevoteProofs
      let s2 := fetch.1
      let effs2 := effs1 ++ fetch.2
      if res = AddVoteResult.Accepted ∧ vID = ViewID.NextRound then
        match checkPrevoteViewShift s2 vID with
        | .error e => .error e
        | .ok shift => .ok (shift.1, effs2 ++ shift.2)
      else
        .ok (s2, effs2)

/-- addPrecommit (kernel.go 521-624): the precommit twin of addPrevote; an
accepted precommit additionally triggers the voting view-shift check when it
landed in Voting, or the next-round view-shift check when it landed in
NextRound. -/
def addPrecommit (k : KernelCfg) (s : kState) (req : AddPrecommitRequest) :
    Except String (kState × List Effect) :=
  match s.FindView req.H req.R with
  | .beforeCommitting => .ok (s, replyEff req.HasResponse .OutOfDate)
  | .orphaned => .ok (s, replyEff req.HasResponse .OutOfDate)
  | .wrongCommit =>
      .ok (s, Effect.logWrongCommitTodo :: replyEff req.HasResponse .OutOfDate)
  | .futureNotYetTracked =>
      .error "TODO: handle unexpected view status when adding precommit"
  | .found vID =>
      let view := s.viewOf vID
      let ing := ingestPrecommits req.H req.R view req.PrecommitUpdates
      let s1 := s.setView vID ing.view
      let res := if ing.allAccepted then AddVoteResult.Accepted else AddVoteResult.Conflict
      let effs1 := ing.effs ++ replyEff req.HasResponse res
      let fetch := checkMissingPBs s1 ing.view.VRV.PrecommitProofs
      let s2 := fetch.1
      let effs2 := effs1 ++ fetch.2
      if res ≠ AddVoteResult.Accepted then
        .ok (s2, effs2)
      else
        match vID with
        | .Voting =>
            match checkVotingPrecommitViewShift k s2 with
            | .error e => .error e
            | .ok shift => .ok (shift.1, effs2 ++ shift.2)
        | .NextRound =>
            match checkNextRoundPrecommitViewShift s2 with
            | .error e => .error e
            | .ok shift => .ok (shift.1, effs2 ++ shift.2)
        | .Committing => .ok (s2, effs2)

/-- MergeSparse, modelled from the spec: merging a sparse proof into an
aggregate proof only gains bits; IncreasedSignatures reports whether any bit
was added. -/
def mergeSparse (target : SigProof) (laterSigs : List String) :
    SigProof × Bool :=
  let added := laterSigs.filter (fun sig => ¬ target.sigs.contains sig)
  (⟨target.sigs ++ added⟩, ¬ added.isEmpty)

/-- The backfill merge loop of addPB (kernel.go 360-375): merge each entry
of a prev-commit proof into the committing precommit proofs; an entry for a
block unknown to the committing view panics in the source. -/
def backfillMerge (proofs : List (String × SigProof)) :
    List (String × List String) →
      Except String (List (String × SigProof) × Bool)
  | [] => .ok (proofs, false)
  | (blockHash, laterSigs) :: rest =>
      match alookup proofs blockHash with
      | none => .error "TODO: backfill unknown block precommit"
      | some target =>
          let (merged, increased) := mergeSparse target laterSigs
          match backfillMerge (aset proofs blockHash merged) rest with
          | .error e => .error e
          | .ok (p, mergedRest) => .ok (p, increased ∨ mergedRest)

/-- The view-located remainder of addPB (kernel.go 309-408), applied to the
state after the fetch-cancellation step: locate the view (dropping with a
log when none matches), drop silently on a duplicate signature, append and
persist the proposed block, refresh the outgoing view, backfill the
previous-height precommits carried in the block header when the view is
Voting or NextRound, and re-check the voting precommit view shift when the
block landed in Voting with precommits already present for its hash. -/
def addPBInner (k : KernelCfg) (s0 : kState) (pb : ProposedBlock)
    (cancelEffs : List Effect) : Except String (kState × List Effect) :=
  match s0.FindView pb.Block.Height pb.Round with
  | .found vID =>
      let view := s0.viewOf vID
      if view.VRV.ProposedBlocks.any (fun h => h.Signature = pb.Signature) then
        .ok (s0, cancelEffs)
      else
        let view1 := View.UpdateOutgoing { view with VRV := { view.VRV with
          toRoundView := { view.VRV.toRoundView with
            ProposedBlocks := view.VRV.ProposedBlocks ++ [pb] } } }
        let s1 := s0.setView vID view1
        let effs1 := cancelEffs ++ [Effect.saveProposedBlock pb]
        if vID = ViewID.Committing then
          .ok (s1, effs1)
        else
          match backfillMerge s1.Committing.VRV.PrecommitProofs
              pb.Block.PrevCommitProof.Proofs with
          | .error e => .error e
          | .ok mergeRes =>
              let committing1 := { s1.Committing with
                VRV := { s1.Committing.VRV with
                  toRoundView := { s1.Committing.VRV.toRoundView with
                    PrecommitProofs := mergeRes.1 } } }
              let backfillStep :=
                if mergeRes.2 then
                  (View.UpdateOutgoing committing1,
                   [Effect.overwritePrecommitProofs (pb.Block.Height - 1)
                      pb.Block.PrevCommitProof.Round mergeRes.1])
                else (committing1, ([] : List Effect))
              let s2 := { s1 with Committing := backfillStep.1 }
              let effs3 := effs1 ++ backfillStep.2
              if vID = ViewID.Voting ∧
                  (alookup s2.Voting.VRV.PrecommitProofs pb.Block.Hash).isSome then
                match checkVotingPrecommitViewShift k s2 with
                | .error e => .error e
                | .ok shift => .ok (shift.1, effs3 ++ shift.2)
              else
                .ok (s2, effs3)
  | _ =>
      .ok (s0, cancelEffs ++ [Effect.logDroppedPB pb.Block.Height pb.Round])

/-- addPB (kernel.go 300-408): cancel a pending fetch for the block, then
run the view-located remainder (addPBInner). -/
def addPB (k : KernelCfg) (s : kState) (pb : ProposedBlock) :
    Except String (kState × List Effect) :=
  if s.InFlightFetchPBs.contains pb.Block.Hash then
    addPBInner k
      { s with InFlightFetchPBs := s.InFlightFetchPBs.erase pb.Block.Hash }
      pb [Effect.cancelFetch pb.Block.Hash]
  else
    addPBInner k s pb []

/-- A state-machine vote action: target hash, and the signature (empty means
absent). -/
structure SMVote where
  TargetHash : String
  Sig : String
deriving DecidableEq, Repr

/-- A state-machine round action (tmeil.StateMachineRoundAction): a proposed
block, a prevote, or a precommit; absence is an empty hash or signature. -/
structure StateMachineRoundAction where
  PB : ProposedBlock
  Prevote : SMVote
  Precommit : SMVote
deriving DecidableEq, Repr

/-- Which outcome the validation and dispatch prefix of
handleStateMachineAction reaches without panicking: a proposed block
dispatched to addPB, a vote logged and dropped at the view lookup, or a
single vote dispatched against the resolved view. -/
inductive SMActionOutcome
  | pb
  | droppedVote
  | prevote (vID : ViewID)
  | precommit (vID : ViewID)
deriving DecidableEq, Repr

/-- The validation and dispatch prefix of handleStateMachineAction
(kernel.go 1478-1524): no action present panics; a proposed block together
with a vote panics, a proposed block alone goes to addPB and returns; for a
vote, the kernel first resolves the state machine's bound height and round
with FindView (kernel.go 1503-1517) and, unless the lookup finds the Voting
or the Committing view, logs and drops the vote without panicking; only
past that early return does the both-votes combination panic, and a single
vote is dispatched against the resolved view. -/
def handleStateMachineActionCheck (s : kState) (act : StateMachineRoundAction) :
    Except String SMActionOutcome :=
  let hasPB := 0 < act.PB.Block.Hash.length
  let hasPrevote := 0 < act.Prevote.Sig.length
  let hasPrecommit := 0 < act.Precommit.Sig.length
  if ¬(hasPB ∨ hasPrevote ∨ hasPrecommit) then
    .error "BUG: no state machine action present"
  else if hasPB then
    if hasPrevote ∨ hasPrecommit then
      .error "BUG: multiple state machine actions present when exactly one required"
    else
      .ok .pb
  else
    match s.FindView s.StateMachineH s.StateMachineR with
    | .found vID =>
        if vID ≠ ViewID.Voting ∧ vID ≠ ViewID.Committing then
          .ok .droppedVote
        else if hasPrevote then
          if hasPrecommit then
            .error "BUG: multiple state machine actions present when exactly one required"
          else
            .ok (.prevote vID)
        else
          .ok (.precommit vID)
    | _ => .ok .droppedVote

/-- Whether the vote path of handleStateMachineAction stops at the view
lookup (kernel.go 1503-1517): the state machine's bound height and round do
not resolve to the Voting or the Committing view, so the vote is logged and
dropped instead of reaching the code past that early return. -/
def smVoteBindingDrops (s : kState) : Bool :=
  match s.FindView s.StateMachineH s.StateMachineR with
  | .found vID => !(vID == ViewID.Voting || vID == ViewID.Committing)
  | _ => true

/-- Four equal-power validators, the standard fixture of the spec
(power 10 each, available power 40, majority 27, minority 14). -/
def sampleVals : List Validator :=
  [⟨"v0", 10⟩, ⟨"v1", 10⟩, ⟨"v2", 10⟩, ⟨"v3", 10⟩]

/-- An aggregate proof signed by all four sample validators. -/
def sampleFullProof : SigProof := ⟨["v0", "v1", "v2", "v3"]⟩

/-- The block committed at height 1 in the sample fixture. -/
def blockA : Block :=
  { Hash := "a"
    PrevBlockHash := ""
    Height := 1
    Validators := sampleVals
    NextValidators := sampleVals
    PrevCommitProof := { Round := 0, PubKeyHash := "kh", Proofs := [] } }

/-- The proposed block carrying blockA. -/
def pbA : ProposedBlock :=
  { Block := blockA, Round := 0, ProposerPubKey := "v0", Signature := "sigA" }

/-- The block proposed at height 2 in the sample fixture, attesting the
height-1 precommits for blockA in its header. -/
def blockB : Block :=
  { Hash := "b"
    PrevBlockHash := "a"
    Height := 2
    Validators := sampleVals
    NextValidators := sampleVals
    PrevCommitProof :=
      { Round := 0, PubKeyHash := "kh", Proofs := [("a", ["v0", "v1", "v2"])] } }

/-- The proposed block carrying blockB. -/
def pbB : ProposedBlock :=
  { Block := blockB, Round := 0, ProposerPubKey := "v1", Signature := "sigB" }

/-- The sample committing view at height 1, round 0: blockA proposed, full
precommit power on its hash. -/
def sampleCommittingVRV : VersionedRoundView :=
  { Height := 1
    Round := 0
    Validators := sampleVals
    ValidatorPubKeyHash := "kh"
    ValidatorVotePowerHash := "ph"
    ProposedBlocks := [pbA]
    PrevoteProofs := [("", SigProof.empty), ("a", sampleFullProof)]
    PrecommitProofs := [("", SigProof.empty), ("a", sampleFullProof)]
    VoteSummary := SetPrecommitPowers sampleVals
      [("", SigProof.empty), ("a", sampleFullProof)]
      (SetAvailablePower sampleVals NewVoteSummary)
    Version := 1
    PrevoteVersion := 1
    PrecommitVersion := 1
    PrevoteBlockVersions := [("a", 1)]
    PrecommitBlockVersions := [("a", 1)] }

/-- The sample voting view at height 2, round 0: freshly initialized, no
proposed blocks and no votes yet. -/
def sampleVotingVRV : VersionedRoundView :=
  { Height := 2
    Round := 0
    Validators := sampleVals
    ValidatorPubKeyHash := "kh"
    ValidatorVotePowerHash := "ph"
    ProposedBlocks := []
    PrevoteProofs := [("", SigProof.empty)]
    PrecommitProofs := [("", SigProof.empty)]
    VoteSummary := SetAvailablePower sampleVals NewVoteSummary
    Version := 1
    PrevoteVersion := 1
    PrecommitVersion := 1
    PrevoteBlockVersions := []
    PrecommitBlockVersions := [] }

/-- The sample next-round view at height 2, round 1. -/
def sampleNextRoundVRV : VersionedRoundView :=
  { sampleVotingVRV with Round := 1 }

/-- The sample kernel state: committing (1,0) with blockA, voting (2,0),
next round (2,1); no fetches in flight; four free fetch-channel slots. -/
def sampleState : kState :=
  { Committing :=
      { VRV := sampleCommittingVRV
        OutgoingVRV := sampleCommittingVRV
        OutgoingSent := true }
    Voting :=
      { VRV := sampleVotingVRV
        OutgoingVRV := sampleVotingVRV
        OutgoingSent := true }
    NextRound :=
      { VRV := sampleNextRoundVRV
        OutgoingVRV := sampleNextRoundVRV
        OutgoingSent := true }
    CommittingBlock := blockA
    InFlightFetchPBs := []
    NilVotedRound := none
    StateMachineH := 2
    StateMachineR := 0
    FetchChanFree := 4 }

/-- The sample state with blockB proposed in the voting view and full
precommit power observed on its hash. -/
def sampleCommitReadyState : kState :=
  { sampleState with
    Voting :=
      { VRV := { sampleVotingVRV with
          ProposedBlocks := [pbB]
          PrecommitProofs := [("", SigProof.empty), ("b", sampleFullProof)]
          PrecommitBlockVersions := [("b", 1)]
          VoteSummary := SetPrecommitPowers sampleVals
            [("", SigProof.empty), ("b", sampleFullProof)]
            (SetAvailablePower sampleVals NewVoteSummary) }
        OutgoingVRV := sampleVotingVRV
        OutgoingSent := true } }

/-- A state-machine round action carrying both votes and no proposed block
(the proposed block is the zero value, whose empty hash marks absence). -/
def bothVotesAct : StateMachineRoundAction :=
  { PB :=
      { Block :=
          { Hash := ""
            PrevBlockHash := ""
            Height := 0
            Validators := []
            NextValidators := []
            PrevCommitProof := { Round := 0, PubKeyHash := "", Proofs := [] } }
        Round := 0
        ProposerPubKey := ""
        Signature := "" }
    Prevote := { TargetHash := "a", Sig := "sv" }
    Precommit := { TargetHash := "a", Sig := "sc" } }

/-- The sample state with the state machine bound to height 0, round 5: a
binding below the committing height, which FindView resolves to
BeforeCommitting rather than to the Voting or Committing view. -/
def orphanBoundState : kState :=
  { sampleState with StateMachineH := 0, StateMachineR := 5 }

theorem alookup_aset_self {α : Type} (m : List (String × α)) (k : String) (v : α) :
    alookup (aset m k v) k = some v := by
  induction m with
  | nil => simp [aset, alookup]
  | cons kv rest ih =>
      by_cases h : kv.1 = k
      · simp [aset, h, alookup]
      · simp [aset, h, alookup, ih]

theorem alookup_aset_ne {α : Type} (m : List (String × α)) (k k2 : String) (v : α)
    (h : k ≠ k2) : alookup (aset m k v) k2 = alookup m k2 := by
  induction m with
  | nil => simp [aset, alookup, h]
  | cons kv rest ih =>
      by_cases hk : kv.1 = k
      · simp [aset, hk, alookup, h]
      · simp [aset, hk, alookup, ih]

theorem mem_map_fst_iff_alookup_isSome {α : Type} (m : List (String × α)) (k : String) :
    k ∈ m.map Prod.fst ↔ (alookup m k).isSome := by
  induction m with
  | nil => simp [alookup]
  | cons kv rest ih =>
      by_cases h : kv.1 = k
      · simp [alookup, h]
      · simp [alookup, h, ih, Ne.symm h]

theorem mostVotedEntry_mem (ps : List (String × Nat)) :
    mostVotedEntry ps = ("", 0) ∨ mostVotedEntry ps ∈ ps := by
  induction ps with
  | nil => simp [mostVotedEntry]
  | cons kv rest ih =>
      simp only [mostVotedEntry]
      by_cases h : kv.2 > (mostVotedEntry rest).2
      · simp [h]
      · simp only [h, if_false]
        rcases ih with h1 | h1
        · exact Or.inl h1
        · exact Or.inr (List.mem_cons_of_mem _ h1)

theorem mostVotedHash_mem (ps : List (String × Nat)) (h : mostVotedHash ps ≠ "") :
    mostVotedHash ps ∈ ps.map Prod.fst := by
  rcases mostVotedEntry_mem ps with h1 | h1
  · exact absurd (congrArg Prod.fst h1) h
  · exact List.mem_map.mpr ⟨mostVotedEntry ps, h1, rfl⟩

theorem ByzantineMinority_le_ByzantineMajority (p : Nat) :
    ByzantineMinority p ≤ ByzantineMajority p := by
  unfold ByzantineMinority ByzantineMajority
  have : p / 3 ≤ 2 * p / 3 := Nat.div_le_div_right (by omega)
  omega

theorem applyVoteUpdates_all_stale (proofs : List (String × SigProof))
    (versions : List (String × Nat)) (updates : List (String × VoteUpdate))
    (h : ∀ p ∈ updates, p.2.PrevVersion ≠ getN versions p.1) :
    applyVoteUpdates proofs versions updates =
      (proofs, versions, updates.isEmpty, false) := by
  induction updates with
  | nil => simp [applyVoteUpdates]
  | cons u rest ih =>
      have hu : u.2.PrevVersion ≠ getN versions u.1 := h u (List.mem_cons_self u rest)
      have hrest : ∀ p ∈ rest, p.2.PrevVersion ≠ getN versions p.1 :=
        fun p hp => h p (List.mem_cons_of_mem u hp)
      obtain ⟨bh, uu⟩ := u
      simp only [applyVoteUpdates, if_neg hu, ih hrest]
      simp

theorem sendFetches_frame (h r minPow : Nat) (powers : List (String × Nat))
    (s : kState) (l : List String) :
    (sendFetches h r minPow powers s l).1.Committing = s.Committing ∧
    (sendFetches h r minPow powers s l).1.Voting = s.Voting ∧
    (sendFetches h r minPow powers s l).1.NextRound = s.NextRound ∧
    (sendFetches h r minPow powers s l).1.CommittingBlock = s.CommittingBlock ∧
    (sendFetches h r minPow powers s l).1.NilVotedRound = s.NilVotedRound ∧
    (sendFetches h r minPow powers s l).1.StateMachineH = s.StateMachineH ∧
    (sendFetches h r minPow powers s l).1.StateMachineR = s.StateMachineR := by
  induction l generalizing s with
  | nil => simp [sendFetches]
  | cons x rest ih =>
      by_cases h1 : getN powers x < minPow
      · simpa [sendFetches, h1] using ih s
      · by_cases h2 : 0 < s.FetchChanFree
        · simpa [sendFetches, h1, h2] using
            ih { s with
              InFlightFetchPBs := s.InFlightFetchPBs ++ [x]
              FetchChanFree := s.FetchChanFree - 1 }
        · simpa [sendFetches, h1, h2] using ih s

theorem sendFetches_effects (h r minPow : Nat) (powers : List (String × Nat))
    (s : kState) (l : List String) :
    ∀ e ∈ (sendFetches h r minPow powers s l).2,
      (∃ hash, e = Effect.fetchRequest h hash) ∨
      (∃ hash, e = Effect.logBlockedFetch h r hash) := by
  induction l generalizing s with
  | nil => simp [sendFetches]
  | cons x rest ih =>
      intro e he
      by_cases h1 : getN powers x < minPow
      · exact ih s e (by simpa [sendFetches, h1] using he)
      · by_cases h2 : 0 < s.FetchChanFree
        · simp only [sendFetches, if_neg h1, if_pos h2, List.mem_cons] at he
          rcases he with he | he
          · exact Or.inl ⟨x, he⟩
          · exact ih _ e he
        · simp only [sendFetches, if_neg h1, if_neg h2, List.mem_cons] at he
          rcases he with he | he
          · exact Or.inr ⟨x, he⟩
          · exact ih _ e he

theorem sendFetches_inflight_iff (h r minPow : Nat) (powers : List (String × Nat))
    (s : kState) (l : List String) (hash : String) :
    hash ∈ (sendFetches h r minPow powers s l).1.InFlightFetchPBs ↔
      hash ∈ s.InFlightFetchPBs ∨
        Effect.fetchRequest h hash ∈ (sendFetches h r minPow powers s l).2 := by
  induction l generalizing s with
  | nil => simp [sendFetches]
  | cons x rest ih =>
      by_cases h1 : getN powers x < minPow
      · simpa [sendFetches, h1] using ih s
      · by_cases h2 : 0 < s.FetchChanFree
        · simp only [sendFetches, if_neg h1, if_pos h2]
          rw [ih]
          simp only [List.mem_append, List.mem_singleton, List.mem_cons,
            Effect.fetchRequest.injEq, true_and, eq_comm]
          tauto
        · simp only [sendFetches, if_neg h1, if_neg h2]
          rw [ih]
          simp only [List.mem_cons]
          have : ¬ (Effect.fetchRequest h hash = Effect.logBlockedFetch h r x) := by simp
          tauto

theorem sendFetches_fetch_iff (h r minPow : Nat) (powers : List (String × Nat))
    (s : kState) (l : List String)
    (hcap : (l.filter (fun x => minPow ≤ getN powers x)).length ≤ s.FetchChanFree)
    (hash : String) :
    Effect.fetchRequest h hash ∈ (sendFetches h r minPow powers s l).2 ↔
      (hash ∈ l ∧ minPow ≤ getN powers hash) := by
  induction l generalizing s with
  | nil => simp [sendFetches]
  | cons x rest ih =>
      by_cases h1 : getN powers x < minPow
      · have hpx : ¬ (minPow ≤ getN powers x) := Nat.not_le.mpr h1
        have hcap2 :
            (rest.filter (fun x => minPow ≤ getN powers x)).length ≤ s.FetchChanFree := by
          rw [List.filter_cons] at hcap
          simpa [hpx] using hcap
        rw [show sendFetches h r minPow powers s (x :: rest) =
            sendFetches h r minPow powers s rest by simp [sendFetches, h1]]
        rw [ih s hcap2]
        simp only [List.mem_cons]
        constructor
        · rintro ⟨hm, hp⟩
          exact ⟨Or.inr hm, hp⟩
        · rintro ⟨hm | hm, hp⟩
          · exact absurd (hm ▸ hp) hpx
          · exact ⟨hm, hp⟩
      · have hpx : minPow ≤ getN powers x := Nat.not_lt.mp h1
        have hlen : (List.filter (fun x => decide (minPow ≤ getN powers x)) (x :: rest)).length =
            (rest.filter (fun x => minPow ≤ getN powers x)).length + 1 := by
          rw [List.filter_cons]
          simp [hpx]
        have h2 : 0 < s.FetchChanFree := by omega
        have hcap2 :
            (rest.filter (fun x => minPow ≤ getN powers x)).length ≤ s.FetchChanFree - 1 := by
          omega
        simp only [sendFetches, if_neg h1, if_pos h2, List.mem_cons]
        rw [ih _ hcap2]
        simp only [Effect.fetchRequest.injEq, true_and]
        constructor
        · rintro (hm | ⟨hm, hp⟩)
          · exact ⟨Or.inl hm, by rw [hm]; exact hpx⟩
          · exact ⟨Or.inr hm, hp⟩
        · rintro ⟨hm | hm, hp⟩
          · exact Or.inl hm
          · exact Or.inr ⟨hm, hp⟩

theorem sendFetches_cap0 (h r minPow : Nat) (powers : List (String × Nat))
    (s : kState) (l : List String) (hcap : s.FetchChanFree = 0) :
    (sendFetches h r minPow powers s l).1 = s ∧
      (sendFetches h r minPow powers s l).2 =
        (l.filter (fun x => minPow ≤ getN powers x)).map
          (fun hash => Effect.logBlockedFetch h r hash) := by
  induction l generalizing s with
  | nil => simp [sendFetches]
  | cons x rest ih =>
      by_cases h1 : getN powers x < minPow
      · have hpx : ¬ (minPow ≤ getN powers x) := Nat.not_le.mpr h1
        rw [show sendFetches h r minPow powers s (x :: rest) =
            sendFetches h r minPow powers s rest by simp [sendFetches, h1]]
        rw [List.filter_cons]
        simpa [hpx] using ih s hcap
      · have hpx : minPow ≤ getN powers x := Nat.not_lt.mp h1
        have h2 : ¬ 0 < s.FetchChanFree := by omega
        simp only [sendFetches, if_neg h1, if_neg h2, List.filter_cons]
        rcases ih s hcap with ⟨ih1, ih2⟩
        simp [hpx, ih1, ih2]

theorem checkMissingPBs_frame (s : kState) (proofs : List (String × SigProof)) :
    (checkMissingPBs s proofs).1.Committing = s.Committing ∧
    (checkMissingPBs s proofs).1.Voting = s.Voting ∧
    (checkMissingPBs s proofs).1.NextRound = s.NextRound ∧
    (checkMissingPBs s proofs).1.CommittingBlock = s.CommittingBlock ∧
    (checkMissingPBs s proofs).1.NilVotedRound = s.NilVotedRound ∧
    (checkMissingPBs s proofs).1.StateMachineH = s.StateMachineH ∧
    (checkMissingPBs s proofs).1.StateMachineR = s.StateMachineR := by
  unfold checkMissingPBs
  by_cases h1 : (missingPBList s proofs).isEmpty
  · simp [h1]
  · by_cases h2 : (pendingFetchList s proofs).isEmpty
    · simp [h1, h2]
    · simpa [h1, h2] using sendFetches_frame _ _ _ _ s _

theorem checkMissingPBs_effects (s : kState) (proofs : List (String × SigProof)) :
    ∀ e ∈ (checkMissingPBs s proofs).2,
      (∃ hash, e = Effect.fetchRequest s.Voting.VRV.Height hash) ∨
      (∃ hash, e = Effect.logBlockedFetch s.Voting.VRV.Height s.Voting.VRV.Round hash) := by
  unfold checkMissingPBs
  by_cases h1 : (missingPBList s proofs).isEmpty
  · simp [h1]
  · by_cases h2 : (pendingFetchList s proofs).isEmpty
    · simp [h1, h2]
    · simpa [h1, h2] using sendFetches_effects _ _ _ _ s _

theorem checkMissingPBs_inflight_iff (s : kState) (proofs : List (String × SigProof))
    (hash : String) :
    hash ∈ (checkMissingPBs s proofs).1.InFlightFetchPBs ↔
      hash ∈ s.InFlightFetchPBs ∨
        Effect.fetchRequest s.Voting.VRV.Height hash ∈ (checkMissingPBs s proofs).2 := by
  unfold checkMissingPBs
  by_cases h1 : (missingPBList s proofs).isEmpty
  · simp [h1]
  · by_cases h2 : (pendingFetchList s proofs).isEmpty
    · simp [h1, h2]
    · simpa [h1, h2] using sendFetches_inflight_iff _ _ _ _ s _ hash

theorem checkMissingPBs_fetch_iff (s : kState) (proofs : List (String × SigProof))
    (hcap : (eligibleFetchList s proofs).length ≤ s.FetchChanFree) (hash : String) :
    Effect.fetchRequest s.Voting.VRV.Height hash ∈ (checkMissingPBs s proofs).2 ↔
      (hash ∈ pendingFetchList s proofs ∧
        ByzantineMinority (totalPower s.Voting.VRV.Validators) ≤
          getN (blockPowers s.Voting.VRV.Validators proofs) hash) := by
  unfold checkMissingPBs
  by_cases h1 : (missingPBList s proofs).isEmpty
  · have : pendingFetchList s proofs = [] := by
      unfold pendingFetchList
      rw [List.isEmpty_iff] at h1
      simp [h1]
    simp [h1, this]
  · by_cases h2 : (pendingFetchList s proofs).isEmpty
    · rw [List.isEmpty_iff] at h2
      simp [h1, h2]
    · simpa [h1, h2, eligibleFetchList, newVoteDistribution] using
        sendFetches_fetch_iff s.Voting.VRV.Height s.Voting.VRV.Round
          (ByzantineMinority (totalPower s.Voting.VRV.Validators))
          (blockPowers s.Voting.VRV.Validators proofs) s
          (pendingFetchList s proofs) (by simpa [eligibleFetchList] using hcap) hash

theorem checkMissingPBs_cap0 (s : kState) (proofs : List (String × SigProof))
    (hcap : s.FetchChanFree = 0) :
    (checkMissingPBs s proofs).1 = s ∧
      (checkMissingPBs s proofs).2 =
        (eligibleFetchList s proofs).map
          (fun hash =>
            Effect.logBlockedFetch s.Voting.VRV.Height s.Voting.VRV.Round hash) := by
  unfold checkMissingPBs
  by_cases h1 : (missingPBList s proofs).isEmpty
  · have : pendingFetchList s proofs = [] := by
      unfold pendingFetchList
      rw [List.isEmpty_iff] at h1
      simp [h1]
    simp [h1, eligibleFetchList, this]
  · by_cases h2 : (pendingFetchList s proofs).isEmpty
    · rw [List.isEmpty_iff] at h2
      simp [h1, h2, eligibleFetchList]
    · simpa [h1, h2, eligibleFetchList, newVoteDistribution] using
        sendFetches_cap0 s.Voting.VRV.Height s.Voting.VRV.Round
          (ByzantineMinority (totalPower s.Voting.VRV.Validators))
          (blockPowers s.Voting.VRV.Validators proofs) s
          (pendingFetchList s proofs) hcap

theorem setView_viewOf (s : kState) (vID : ViewID) :
    s.setView vID (s.viewOf vID) = s := by
  cases vID <;> rfl

theorem blockPowers_keys (vals : List Validator) (proofs : List (String × SigProof)) :
    (blockPowers vals proofs).map Prod.fst = proofs.map Prod.fst := by
  simp [blockPowers]

theorem ingestPrevotes_anyAdded (rh rr : Nat) (view : View)
    (u : List (String × VoteUpdate)) :
    (ingestPrevotes rh rr view u).anyAdded =
      (applyVoteUpdates view.VRV.PrevoteProofs view.VRV.PrevoteBlockVersions u).2.2.2 := rfl

theorem ingestPrevotes_allAccepted (rh rr : Nat) (view : View)
    (u : List (String × VoteUpdate)) :
    (ingestPrevotes rh rr view u).allAccepted =
      (applyVoteUpdates view.VRV.PrevoteProofs view.VRV.PrevoteBlockVersions u).2.2.1 := rfl

theorem ingestPrecommits_anyAdded (rh rr : Nat) (view : View)
    (u : List (String × VoteUpdate)) :
    (ingestPrecommits rh rr view u).anyAdded =
      (applyVoteUpdates view.VRV.PrecommitProofs view.VRV.PrecommitBlockVersions u).2.2.2 := rfl

theorem ingestPrecommits_allAccepted (rh rr : Nat) (view : View)
    (u : List (String × VoteUpdate)) :
    (ingestPrecommits rh rr view u).allAccepted =
      (applyVoteUpdates view.VRV.PrecommitProofs view.VRV.PrecommitBlockVersions u).2.2.1 := rfl

theorem ingestPrevotes_basic (rh rr : Nat) (view : View)
    (u : List (String × VoteUpdate)) :
    (ingestPrevotes rh rr view u).view.VRV.Height = view.VRV.Height ∧
    (ingestPrevotes rh rr view u).view.VRV.Round = view.VRV.Round ∧
    (ingestPrevotes rh rr view u).view.VRV.Validators = view.VRV.Validators ∧
    (ingestPrevotes rh rr view u).view.VRV.ProposedBlocks = view.VRV.ProposedBlocks := by
  simp only [ingestPrevotes]
  split <;> simp [View.UpdateOutgoing]

theorem ingestPrecommits_basic (rh rr : Nat) (view : View)
    (u : List (String × VoteUpdate)) :
    (ingestPrecommits rh rr view u).view.VRV.Height = view.VRV.Height ∧
    (ingestPrecommits rh rr view u).view.VRV.Round = view.VRV.Round ∧
    (ingestPrecommits rh rr view u).view.VRV.Validators = view.VRV.Validators ∧
    (ingestPrecommits rh rr view u).view.VRV.ProposedBlocks = view.VRV.ProposedBlocks := by
  simp only [ingestPrecommits]
  split <;> simp [View.UpdateOutgoing]

theorem ingestPrevotes_all_stale (rh rr : Nat) (view : View)
    (u : List (String × VoteUpdate))
    (h : ∀ p ∈ u, p.2.PrevVersion ≠ getN view.VRV.PrevoteBlockVersions p.1) :
    ingestPrevotes rh rr view u =
      { view := view, effs := [], allAccepted := u.isEmpty, anyAdded := false } := by
  simp only [ingestPrevotes]
  rw [applyVoteUpdates_all_stale _ _ _ h]
  simp

theorem ingestPrecommits_all_stale (rh rr : Nat) (view : View)
    (u : List (String × VoteUpdate))
    (h : ∀ p ∈ u, p.2.PrevVersion ≠ getN view.VRV.PrecommitBlockVersions p.1) :
    ingestPrecommits rh rr view u =
      { view := view, effs := [], allAccepted := u.isEmpty, anyAdded := false } := by
  simp only [ingestPrecommits]
  rw [applyVoteUpdates_all_stale _ _ _ h]
  simp

theorem ingestPrecommits_summary_of_added (rh rr : Nat) (view : View)
    (u : List (String × VoteUpdate))
    (hadd : (ingestPrecommits rh rr view u).anyAdded = true) :
    (ingestPrecommits rh rr view u).view.VRV.VoteSummary =
      SetPrecommitPowers view.VRV.Validators
        (ingestPrecommits rh rr view u).view.VRV.PrecommitProofs
        view.VRV.VoteSummary := by
  rw [ingestPrecommits_anyAdded] at hadd
  simp only [ingestPrecommits]
  simp [hadd, View.UpdateOutgoing]

/-- C10: RoundView.ResetForSameHeight (and its VersionedRoundView variant)
leaves Height, Validators, ValidatorPubKeyHash, and ValidatorVotePowerHash
unchanged while setting Round to 0, emptying ProposedBlocks, and clearing
the PrevoteProofs and PrecommitProofs maps; the versioned variant
additionally zeroes Version, PrevoteVersion, and PrecommitVersion and clears
the per-hash block-version maps. -/
theorem C10_ResetForSameHeight_spec (v : RoundView) (w : VersionedRoundView) :
    (v.ResetForSameHeight.Height = v.Height ∧
     v.ResetForSameHeight.Validators = v.Validators ∧
     v.ResetForSameHeight.ValidatorPubKeyHash = v.ValidatorPubKeyHash ∧
     v.ResetForSameHeight.ValidatorVotePowerHash = v.ValidatorVotePowerHash ∧
     v.ResetForSameHeight.Round = 0 ∧
     v.ResetForSameHeight.ProposedBlocks = [] ∧
     v.ResetForSameHeight.PrevoteProofs = [] ∧
     v.ResetForSameHeight.PrecommitProofs = []) ∧
    (w.ResetForSameHeight.Height = w.Height ∧
     w.ResetForSameHeight.Validators = w.Validators ∧
     w.ResetForSameHeight.ValidatorPubKeyHash = w.ValidatorPubKeyHash ∧
     w.ResetForSameHeight.ValidatorVotePowerHash = w.ValidatorVotePowerHash ∧
     w.ResetForSameHeight.Round = 0 ∧
     w.ResetForSameHeight.ProposedBlocks = [] ∧
     w.ResetForSameHeight.PrevoteProofs = [] ∧
     w.ResetForSameHeight.PrecommitProofs = [] ∧
     w.ResetForSameHeight.Version = 0 ∧
     w.ResetForSameHeight.PrevoteVersion = 0 ∧
     w.ResetForSameHeight.PrecommitVersion = 0 ∧
     w.ResetForSameHeight.PrevoteBlockVersions = [] ∧
     w.ResetForSameHeight.PrecommitBlockVersions = []) :=
  ⟨⟨rfl, rfl, rfl, rfl, rfl, rfl, rfl, rfl⟩,
   rfl, rfl, rfl, rfl, rfl, rfl, rfl, rfl, rfl, rfl, rfl, rfl, rfl⟩

/-- C9 counterexample: an action carrying both votes and no proposed block,
handled in a state whose state-machine binding (height 0, round 5) resolves
below the committing height, is logged and dropped at the view lookup
(kernel.go 1503-1517) without reaching the both-votes panic of kernel.go
1520-1523 -- so the combination of both votes does not unconditionally hit a
panic branch as the claim states. -/
theorem C9_both_votes_dropped_counterexample :
    0 < bothVotesAct.Prevote.Sig.length ∧
    0 < bothVotesAct.Precommit.Sig.length ∧
    ¬ 0 < bothVotesAct.PB.Block.Hash.length ∧
    orphanBoundState.FindView orphanBoundState.StateMachineH
        orphanBoundState.StateMachineR = ViewLookup.beforeCommitting ∧
    handleStateMachineActionCheck orphanBoundState bothVotesAct =
      Except.ok SMActionOutcome.droppedVote :=
  ⟨by decide, by decide, by decide, rfl, rfl⟩

/-- C9 (amended): a state-machine round action passes the validation and
dispatch prefix of handleStateMachineAction (no panic branch reached)
exactly when it carries exactly one of a proposed block, a prevote, or a
precommit, or when it carries both votes without a proposed block while the
state machine's bound height and round do not resolve to the Voting or
Committing view (the vote then being logged and dropped at the lookup
early-return of kernel.go 1503-1517, before the both-votes panic); none
present, or a proposed block together with a vote, always panics. -/
theorem C9_handleStateMachineAction_dispatch (s : kState)
    (act : StateMachineRoundAction) :
    (∃ out, handleStateMachineActionCheck s act = Except.ok out) ↔
      ((0 < act.PB.Block.Hash.length ∧
          ¬ 0 < act.Prevote.Sig.length ∧ ¬ 0 < act.Precommit.Sig.length) ∨
       (¬ 0 < act.PB.Block.Hash.length ∧
          0 < act.Prevote.Sig.length ∧ ¬ 0 < act.Precommit.Sig.length) ∨
       (¬ 0 < act.PB.Block.Hash.length ∧
          ¬ 0 < act.Prevote.Sig.length ∧ 0 < act.Precommit.Sig.length) ∨
       (¬ 0 < act.PB.Block.Hash.length ∧
          0 < act.Prevote.Sig.length ∧ 0 < act.Precommit.Sig.length ∧
          smVoteBindingDrops s = true)) := by
  by_cases h1 : 0 < act.PB.Block.Hash.length <;>
    by_cases h2 : 0 < act.Prevote.Sig.length <;>
      by_cases h3 : 0 < act.Precommit.Sig.length <;>
        cases hfv : s.FindView s.StateMachineH s.StateMachineR with
        | found vID =>
            cases vID <;>
              simp [handleStateMachineActionCheck, smVoteBindingDrops,
                hfv, h1, h2, h3]
        | beforeCommitting =>
            simp [handleStateMachineActionCheck, smVoteBindingDrops,
              hfv, h1, h2, h3]
        | wrongCommit =>
            simp [handleStateMachineActionCheck, smVoteBindingDrops,
              hfv, h1, h2, h3]
        | orphaned =>
            simp [handleStateMachineActionCheck, smVoteBindingDrops,
              hfv, h1, h2, h3]
        | futureNotYetTracked =>
            simp [handleStateMachineActionCheck, smVoteBindingDrops,
              hfv, h1, h2, h3]

/-- C1: the claim says each installed vote update increments the per-hash
version and the appropriate overall vote version.  Evaluating addPrevote and
addPrecommit at a concrete fresh update shows the update is installed, the
per-hash version becomes 1, and the reply is Accepted, but the overall
prevote version (respectively precommit version) is left at its initial
value 1 -- the increment of the overall vote version, which the comments on
VersionedRoundView describe as moving from 1 to 2 on the first installed
update, does not happen in the code. -/
theorem C1_addVote_overall_vote_version_not_incremented :
    ((addPrevote sampleState
        { H := 2, R := 0,
          PrevoteUpdates := [("b", { Proof := ⟨["v0"]⟩, PrevVersion := 0 })],
          HasResponse := true }).map (fun p =>
        (alookup p.1.Voting.VRV.PrevoteProofs "b",
         getN p.1.Voting.VRV.PrevoteBlockVersions "b",
         decide (Effect.reply AddVoteResult.Accepted ∈ p.2),
         p.1.Voting.VRV.PrevoteVersion)) =
      Except.ok (some ⟨["v0"]⟩, 1, true, 1)) ∧
    ((addPrecommit ⟨1⟩ sampleState
        { H := 2, R := 0,
          PrecommitUpdates := [("b", { Proof := ⟨["v0"]⟩, PrevVersion := 0 })],
          HasResponse := true }).map (fun p =>
        (alookup p.1.Voting.VRV.PrecommitProofs "b",
         getN p.1.Voting.VRV.PrecommitBlockVersions "b",
         decide (Effect.reply AddVoteResult.Accepted ∈ p.2),
         p.1.Voting.VRV.PrecommitVersion)) =
      Except.ok (some ⟨["v0"]⟩, 1, true, 1)) := by
  constructor <;> rfl

/-- C3: advanceVotingRound stashes a clone of the pre-advance Voting view in
NilVotedRound, swaps the Voting and NextRound VersionedRoundView fields,
resets the new Voting view's overall version to 0, resets NextRound for the
same height with round equal to the new voting round plus one, and
re-initializes the nil prevote and precommit proofs of NextRound. -/
theorem C3_advanceVotingRound_spec (s : kState) :
    (advanceVotingRound s).1.NilVotedRound = some s.Voting.VRV ∧
    (advanceVotingRound s).1.Voting.VRV = { s.NextRound.VRV with Version := 0 } ∧
    (advanceVotingRound s).1.Voting.VRV.Version = 0 ∧
    (advanceVotingRound s).1.NextRound.VRV =
      { s.Voting.VRV.ResetForSameHeight with
          Round := s.NextRound.VRV.Round + 1
          PrevoteProofs := [("", SigProof.empty)]
          PrecommitProofs := [("", SigProof.empty)] } ∧
    (advanceVotingRound s).1.NextRound.VRV.Round =
      (advanceVotingRound s).1.Voting.VRV.Round + 1 ∧
    alookup (advanceVotingRound s).1.NextRound.VRV.PrevoteProofs "" =
      some SigProof.empty ∧
    alookup (advanceVotingRound s).1.NextRound.VRV.PrecommitProofs "" =
      some SigProof.empty ∧
    (s.Voting.VRV.Height = s.NextRound.VRV.Height →
      (advanceVotingRound s).1.NextRound.VRV.Height =
        (advanceVotingRound s).1.Voting.VRV.Height) :=
  ⟨rfl, rfl, rfl, rfl, rfl, rfl, rfl, fun h => h⟩

/-- C3 witness: the spec of advanceVotingRound evaluated at the sample
state, where voting is at height 2 round 0 and next round at height 2
round 1. -/
theorem C3_advanceVotingRound_witness :
    (advanceVotingRound sampleState).1.NilVotedRound = some sampleState.Voting.VRV ∧
    (advanceVotingRound sampleState).1.Voting.VRV.Version = 0 ∧
    (advanceVotingRound sampleState).1.NextRound.VRV.Height =
      (advanceVotingRound sampleState).1.Voting.VRV.Height :=
  ⟨(C3_advanceVotingRound_spec sampleState).1,
   (C3_advanceVotingRound_spec sampleState).2.2.1,
   (C3_advanceVotingRound_spec sampleState).2.2.2.2.2.2.2 (by rfl)⟩

/-- C6: an add-prevote or add-precommit request whose height and round
resolve to a view with status BeforeCommitting or Orphaned is answered
OutOfDate on the response channel and installs nothing -- the state is
returned unchanged and the reply is the only effect; in particular any vote
for a height below the Committing height (under the height invariants of the
three tracked views) resolves to BeforeCommitting. -/
theorem C6_outOfDate_votes (k : KernelCfg) (s : kState)
    (reqv : AddPrevoteRequest) (reqc : AddPrecommitRequest) :
    ((s.FindView reqv.H reqv.R = .beforeCommitting ∨
        s.FindView reqv.H reqv.R = .orphaned) →
      reqv.HasResponse = true →
      addPrevote s reqv = .ok (s, [Effect.reply AddVoteResult.OutOfDate])) ∧
    ((s.FindView reqc.H reqc.R = .beforeCommitting ∨
        s.FindView reqc.H reqc.R = .orphaned) →
      reqc.HasResponse = true →
      addPrecommit k s reqc = .ok (s, [Effect.reply AddVoteResult.OutOfDate])) ∧
    (reqv.H < s.Committing.VRV.Height →
      s.Committing.VRV.Height ≤ s.Voting.VRV.Height →
      s.Committing.VRV.Height ≤ s.NextRound.VRV.Height →
      s.FindView reqv.H reqv.R = .beforeCommitting) := by
  refine ⟨?_, ?_, ?_⟩
  · rintro (h | h) hresp <;> simp [addPrevote, h, replyEff, hresp]
  · rintro (h | h) hresp <;> simp [addPrecommit, h, replyEff, hresp]
  · intro h1 h2 h3
    have hv : reqv.H ≠ s.Voting.VRV.Height := by omega
    have hn : reqv.H ≠ s.NextRound.VRV.Height := by omega
    have hc : reqv.H ≠ s.Committing.VRV.Height := by omega
    simp [kState.FindView, hv, hn, hc, h1]

/-- C6 witness: a precommit and a prevote for height 0 round 0, below the
sample committing height 1, are both answered OutOfDate with the state
unchanged, and the lookup status is BeforeCommitting. -/
theorem C6_outOfDate_votes_witness :
    addPrevote sampleState
        { H := 0, R := 0, PrevoteUpdates := [], HasResponse := true } =
      .ok (sampleState, [Effect.reply AddVoteResult.OutOfDate]) ∧
    addPrecommit ⟨1⟩ sampleState
        { H := 0, R := 0, PrecommitUpdates := [], HasResponse := true } =
      .ok (sampleState, [Effect.reply AddVoteResult.OutOfDate]) ∧
    sampleState.FindView 0 0 = .beforeCommitting := by
  have h := C6_outOfDate_votes ⟨1⟩ sampleState
    { H := 0, R := 0, PrevoteUpdates := [], HasResponse := true }
    { H := 0, R := 0, PrecommitUpdates := [], HasResponse := true }
  have hfv : sampleState.FindView 0 0 = .beforeCommitting :=
    h.2.2 (by decide) (by decide) (by decide)
  exact ⟨h.1 (Or.inl hfv) rfl, h.2.1 (Or.inl hfv) rfl, hfv⟩

/-- C5: an add-prevote or add-precommit request on a found view in which
every update carries a stale prevVersion is answered Conflict, and the
view's state is unchanged -- no proof installed, no per-hash version
changed, the vote summary untouched, the outgoing tracker untouched, and no
store write performed (all three tracked views are returned exactly as they
were). -/
theorem C5_stale_updates_conflict (k : KernelCfg) (s : kState)
    (reqv : AddPrevoteRequest) (reqc : AddPrecommitRequest) :
    (∀ vID, s.FindView reqv.H reqv.R = .found vID →
      reqv.PrevoteUpdates ≠ [] →
      (∀ p ∈ reqv.PrevoteUpdates,
        p.2.PrevVersion ≠ getN (s.viewOf vID).VRV.PrevoteBlockVersions p.1) →
      reqv.HasResponse = true →
      ∃ s2 effs, addPrevote s reqv = .ok (s2, effs) ∧
        s2.Voting = s.Voting ∧ s2.Committing = s.Committing ∧
        s2.NextRound = s.NextRound ∧
        Effect.reply AddVoteResult.Conflict ∈ effs ∧
        ∀ e ∈ effs, e.isPersist = false) ∧
    (∀ vID, s.FindView reqc.H reqc.R = .found vID →
      reqc.PrecommitUpdates ≠ [] →
      (∀ p ∈ reqc.PrecommitUpdates,
        p.2.PrevVersion ≠ getN (s.viewOf vID).VRV.PrecommitBlockVersions p.1) →
      reqc.HasResponse = true →
      ∃ s2 effs, addPrecommit k s reqc = .ok (s2, effs) ∧
        s2.Voting = s.Voting ∧ s2.Committing = s.Committing ∧
        s2.NextRound = s.NextRound ∧
        Effect.reply AddVoteResult.Conflict ∈ effs ∧
        ∀ e ∈ effs, e.isPersist = false) := by
  constructor
  · intro vID hfind hne hstale hresp
    have hing := ingestPrevotes_all_stale reqv.H reqv.R (s.viewOf vID)
      reqv.PrevoteUpdates hstale
    have hempty : reqv.PrevoteUpdates.isEmpty = false := by
      cases hu : reqv.PrevoteUpdates with
      | nil => exact absurd hu hne
      | cons a l => rfl
    refine ⟨(checkMissingPBs s (s.viewOf vID).VRV.PrevoteProofs).1,
      Effect.reply AddVoteResult.Conflict ::
        (checkMissingPBs s (s.viewOf vID).VRV.PrevoteProofs).2, ?_,
      (checkMissingPBs_frame s _).2.1, (checkMissingPBs_frame s _).1,
      (checkMissingPBs_frame s _).2.2.1, List.mem_cons_self _ _, ?_⟩
    · simp [addPrevote, hfind, hing, hempty, setView_viewOf, replyEff, hresp]
    · intro e he
      rcases List.mem_cons.mp he with rfl | he2
      · rfl
      · rcases checkMissingPBs_effects s _ e he2 with ⟨hash, rfl⟩ | ⟨hash, rfl⟩ <;> rfl
  · intro vID hfind hne hstale hresp
    have hing := ingestPrecommits_all_stale reqc.H reqc.R (s.viewOf vID)
      reqc.PrecommitUpdates hstale
    have hempty : reqc.PrecommitUpdates.isEmpty = false := by
      cases hu : reqc.PrecommitUpdates with
      | nil => exact absurd hu hne
      | cons a l => rfl
    refine ⟨(checkMissingPBs s (s.viewOf vID).VRV.PrecommitProofs).1,
      Effect.reply AddVoteResult.Conflict ::
        (checkMissingPBs s (s.viewOf vID).VRV.PrecommitProofs).2, ?_,
      (checkMissingPBs_frame s _).2.1, (checkMissingPBs_frame s _).1,
      (checkMissingPBs_frame s _).2.2.1, List.mem_cons_self _ _, ?_⟩
    · simp [addPrecommit, hfind, hing, hempty, setView_viewOf, replyEff, hresp]
    · intro e he
      rcases List.mem_cons.mp he with rfl | he2
      · rfl
      · rcases checkMissingPBs_effects s _ e he2 with ⟨hash, rfl⟩ | ⟨hash, rfl⟩ <;> rfl

/-- C5 witness: a prevote and a precommit update for the sample voting view
claiming prevVersion 5 where the current per-hash version is 0 are both
answered Conflict and leave every view unchanged. -/
theorem C5_stale_updates_conflict_witness :
    (∃ s2 effs,
      addPrevote sampleState
          { H := 2, R := 0,
            PrevoteUpdates := [("b", { Proof := ⟨["v0"]⟩, PrevVersion := 5 })],
            HasResponse := true } = .ok (s2, effs) ∧
        s2.Voting = sampleState.Voting ∧ s2.Committing = sampleState.Committing ∧
        s2.NextRound = sampleState.NextRound ∧
        Effect.reply AddVoteResult.Conflict ∈ effs ∧
        ∀ e ∈ effs, e.isPersist = false) ∧
    (∃ s2 effs,
      addPrecommit ⟨1⟩ sampleState
          { H := 2, R := 0,
            PrecommitUpdates := [("b", { Proof := ⟨["v0"]⟩, PrevVersion := 5 })],
            HasResponse := true } = .ok (s2, effs) ∧
        s2.Voting = sampleState.Voting ∧ s2.Committing = sampleState.Committing ∧
        s2.NextRound = sampleState.NextRound ∧
        Effect.reply AddVoteResult.Conflict ∈ effs ∧
        ∀ e ∈ effs, e.isPersist = false) := by
  have h := C5_stale_updates_conflict ⟨1⟩ sampleState
    { H := 2, R := 0,
      PrevoteUpdates := [("b", { Proof := ⟨["v0"]⟩, PrevVersion := 5 })],
      HasResponse := true }
    { H := 2, R := 0,
      PrecommitUpdates := [("b", { Proof := ⟨["v0"]⟩, PrevVersion := 5 })],
      HasResponse := true }
  exact ⟨h.1 ViewID.Voting (by decide) (by decide) (by decide) rfl,
         h.2 ViewID.Voting (by decide) (by decide) (by decide) rfl⟩

theorem FindView_set_inflight (s : kState) (fl : List String) (h r : Nat) :
    kState.FindView { s with InFlightFetchPBs := fl } h r = s.FindView h r := rfl

theorem viewOf_set_inflight (s : kState) (fl : List String) (vID : ViewID) :
    kState.viewOf { s with InFlightFetchPBs := fl } vID = s.viewOf vID := by
  cases vID <;> rfl

/-- C7: a proposed block whose height and round match a view and whose
signature is identical to that of a proposed block already in that view is
dropped silently: all three views (proposed blocks, proofs, versions and
outgoing trackers included), the committing block, and the nil-voted-round
stash are unchanged, nothing is persisted and nothing is logged; the only
possible effect is the cancellation of an outstanding fetch for the hash,
which happens before the duplicate check. -/
theorem C7_duplicate_pb_dropped_silently (k : KernelCfg) (s : kState)
    (pb : ProposedBlock) (vID : ViewID)
    (hfind : s.FindView pb.Block.Height pb.Round = .found vID)
    (hdup : (s.viewOf vID).VRV.ProposedBlocks.any
      (fun h => h.Signature = pb.Signature) = true) :
    ∃ s2 effs, addPB k s pb = .ok (s2, effs) ∧
      s2.Voting = s.Voting ∧ s2.Committing = s.Committing ∧
      s2.NextRound = s.NextRound ∧
      s2.CommittingBlock = s.CommittingBlock ∧
      s2.NilVotedRound = s.NilVotedRound ∧
      ∀ e ∈ effs, ∃ hash, e = Effect.cancelFetch hash := by
  have hinner : ∀ (s0 : kState) (cancelEffs : List Effect),
      s0.FindView pb.Block.Height pb.Round = .found vID →
      (s0.viewOf vID).VRV.ProposedBlocks.any
        (fun h => h.Signature = pb.Signature) = true →
      addPBInner k s0 pb cancelEffs = .ok (s0, cancelEffs) := by
    intro s0 ce hf hd
    simp [addPBInner, hf, hd]
  by_cases hc : s.InFlightFetchPBs.contains pb.Block.Hash
  · refine ⟨{ s with InFlightFetchPBs := s.InFlightFetchPBs.erase pb.Block.Hash },
      [Effect.cancelFetch pb.Block.Hash], ?_, rfl, rfl, rfl, rfl, rfl, ?_⟩
    · rw [addPB, if_pos hc]
      exact hinner _ _ (by rw [FindView_set_inflight]; exact hfind)
        (by rw [viewOf_set_inflight]; exact hdup)
    · intro e he
      rcases List.mem_singleton.mp he with rfl
      exact ⟨pb.Block.Hash, rfl⟩
  · refine ⟨s, [], ?_, rfl, rfl, rfl, rfl, rfl, by simp⟩
    rw [addPB, if_neg hc]
    exact hinner s [] hfind hdup

theorem C7_duplicate_pb_dropped_silently_witness :
    ∃ s2 effs, addPB ⟨1⟩ sampleCommitReadyState pbB = .ok (s2, effs) ∧
      s2.Voting = sampleCommitReadyState.Voting ∧
      s2.Committing = sampleCommitReadyState.Committing ∧
      s2.NextRound = sampleCommitReadyState.NextRound ∧
      s2.CommittingBlock = sampleCommitReadyState.CommittingBlock ∧
      s2.NilVotedRound = sampleCommitReadyState.NilVotedRound ∧
      ∀ e ∈ effs, ∃ hash, e = Effect.cancelFetch hash :=
  C7_duplicate_pb_dropped_silently ⟨1⟩ sampleCommitReadyState pbB ViewID.Voting
    (by decide) (by decide)

/-- C2: when the most-voted precommit hash of the Voting view is non-nil
with at least Byzantine-majority power and a proposed block with that hash
is present, checkVotingPrecommitViewShift commits: the old Voting view
becomes the Committing view, CommittingBlock becomes the matching proposed
block, a fresh Voting view is created at height+1 round 0 with validators
equal to the committed block's NextValidators, a fresh NextRound view is
created at height+1 round 1, nil prevote and precommit proofs are
initialized for both new views, and the block that just finished committing
(the old CommittingBlock, paired with the new committing block's
prev-commit proof) is persisted to the block store exactly when the new
voting height is beyond the initial bootstrap height. -/
theorem C2_checkVotingPrecommitViewShift_commits (k : KernelCfg) (s : kState)
    (pb : ProposedBlock)
    (hmaj : ByzantineMajority s.Voting.VRV.VoteSummary.AvailablePower ≤
      getN s.Voting.VRV.VoteSummary.PrecommitBlockPower
        s.Voting.VRV.VoteSummary.MostVotedPrecommitHash)
    (hnn : s.Voting.VRV.VoteSummary.MostVotedPrecommitHash ≠ "")
    (hfind : firstPBWithHash s.Voting.VRV.ProposedBlocks
      s.Voting.VRV.VoteSummary.MostVotedPrecommitHash = some pb) :
    ∃ s1 effs, checkVotingPrecommitViewShift k s = .ok (s1, effs) ∧
      s1.Committing.VRV = s.Voting.VRV ∧
      s1.CommittingBlock = pb.Block ∧
      s1.Voting.VRV.Height = s.Voting.VRV.Height + 1 ∧
      s1.Voting.VRV.Round = 0 ∧
      s1.Voting.VRV.Validators = pb.Block.NextValidators ∧
      s1.NextRound.VRV.Height = s.Voting.VRV.Height + 1 ∧
      s1.NextRound.VRV.Round = 1 ∧
      alookup s1.Voting.VRV.PrevoteProofs "" = some SigProof.empty ∧
      alookup s1.Voting.VRV.PrecommitProofs "" = some SigProof.empty ∧
      alookup s1.NextRound.VRV.PrevoteProofs "" = some SigProof.empty ∧
      alookup s1.NextRound.VRV.PrecommitProofs "" = some SigProof.empty ∧
      (Effect.saveBlock s.CommittingBlock pb.Block.PrevCommitProof ∈ effs ↔
        k.initialHeight + 1 < s.Voting.VRV.Height + 1) := by
  have hnotlt : ¬ (getN s.Voting.VRV.VoteSummary.PrecommitBlockPower
      s.Voting.VRV.VoteSummary.MostVotedPrecommitHash <
      ByzantineMajority s.Voting.VRV.VoteSummary.AvailablePower) :=
    Nat.not_lt.mpr hmaj
  have hfind2 : List.find?
      (fun x => x.Block.Hash = s.Voting.VRV.VoteSummary.MostVotedPrecommitHash)
      s.Voting.VRV.ProposedBlocks = some pb := hfind
  have hp := List.find?_some
    (p := fun x => decide (x.Block.Hash = s.Voting.VRV.VoteSummary.MostVotedPrecommitHash))
    (a := pb) hfind2
  have hasPB : (s.Voting.VRV.ProposedBlocks.any
      (fun x => x.Block.Hash = s.Voting.VRV.VoteSummary.MostVotedPrecommitHash)) = true :=
    List.any_eq_true.mpr ⟨pb, List.mem_of_find?_eq_some hfind2, hp⟩
  simp only [checkVotingPrecommitViewShift, View.UpdateOutgoing, if_neg hnotlt,
    if_neg hnn, if_neg (not_not_intro hasPB), firstPBWithHash, hfind2]
  by_cases hinit : s.Voting.VRV.Height + 1 ≤ k.initialHeight + 1
  · rw [if_pos hinit]
    refine ⟨_, _, rfl, rfl, rfl, rfl, rfl, rfl, rfl, rfl, rfl, rfl, rfl, rfl, ?_⟩
    simp only [List.not_mem_nil, false_iff]
    omega
  · rw [if_neg hinit]
    refine ⟨_, _, rfl, rfl, rfl, rfl, rfl, rfl, rfl, rfl, rfl, rfl, rfl, rfl, ?_⟩
    simp only [List.mem_cons, List.not_mem_nil, or_false]
    constructor
    · intro _; omega
    · intro _; exact Or.inl trivial

/-- C2 witness: the commit path evaluated at the commit-ready sample state,
where blockB is proposed at voting height 2 with full precommit power; the
new voting height 3 is beyond initialHeight 1 + 1, so the old committing
block is persisted. -/
theorem C2_checkVotingPrecommitViewShift_commits_witness :
    ∃ s1 effs,
      checkVotingPrecommitViewShift ⟨1⟩ sampleCommitReadyState = .ok (s1, effs) ∧
      s1.Committing.VRV = sampleCommitReadyState.Voting.VRV ∧
      s1.CommittingBlock = pbB.Block ∧
      s1.Voting.VRV.Height = sampleCommitReadyState.Voting.VRV.Height + 1 ∧
      s1.Voting.VRV.Round = 0 ∧
      s1.Voting.VRV.Validators = pbB.Block.NextValidators ∧
      s1.NextRound.VRV.Height = sampleCommitReadyState.Voting.VRV.Height + 1 ∧
      s1.NextRound.VRV.Round = 1 ∧
      alookup s1.Voting.VRV.PrevoteProofs "" = some SigProof.empty ∧
      alookup s1.Voting.VRV.PrecommitProofs "" = some SigProof.empty ∧
      alookup s1.NextRound.VRV.PrevoteProofs "" = some SigProof.empty ∧
      alookup s1.NextRound.VRV.PrecommitProofs "" = some SigProof.empty ∧
      (Effect.saveBlock sampleCommitReadyState.CommittingBlock
          pbB.Block.PrevCommitProof ∈ effs ↔
        (1 : Nat) + 1 < sampleCommitReadyState.Voting.VRV.Height + 1) :=
  C2_checkVotingPrecommitViewShift_commits ⟨1⟩ sampleCommitReadyState pbB
    (by decide) (by decide) (by decide)

/-- C8: after a vote-map update, checkMissingPBs issues a fetch request for
a block hash exactly when the hash is non-nil, a proof for it exists in the
updated proof map, no proposed block with that hash is in the Voting view,
no fetch for it is already in flight, and its power under a fresh vote
distribution over the Voting validators reaches the Byzantine minority
(provided the fetch channel has a free slot for every eligible hash); every
sent fetch is recorded in InFlightFetchPBs under its hash; and when the
channel is full each eligible hash only produces a blocked-fetch log --
nothing is sent or recorded and there is no retry within the call. -/
theorem C8_checkMissingPBs_spec (s : kState) (proofs : List (String × SigProof)) :
    ((eligibleFetchList s proofs).length ≤ s.FetchChanFree →
      ∀ hash,
        (Effect.fetchRequest s.Voting.VRV.Height hash ∈ (checkMissingPBs s proofs).2 ↔
          (hash ≠ "" ∧ (alookup proofs hash).isSome ∧
           hash ∉ s.Voting.VRV.ProposedBlocks.map (fun pb => pb.Block.Hash) ∧
           hash ∉ s.InFlightFetchPBs ∧
           ByzantineMinority (totalPower s.Voting.VRV.Validators) ≤
             getN (blockPowers s.Voting.VRV.Validators proofs) hash)) ∧
        (Effect.fetchRequest s.Voting.VRV.Height hash ∈ (checkMissingPBs s proofs).2 →
          hash ∈ (checkMissingPBs s proofs).1.InFlightFetchPBs)) ∧
    (s.FetchChanFree = 0 →
      (checkMissingPBs s proofs).1 = s ∧
      (∀ e ∈ (checkMissingPBs s proofs).2, ∃ hash2,
        e = Effect.logBlockedFetch s.Voting.VRV.Height s.Voting.VRV.Round hash2) ∧
      ∀ hash ∈ eligibleFetchList s proofs,
        Effect.logBlockedFetch s.Voting.VRV.Height s.Voting.VRV.Round hash ∈
          (checkMissingPBs s proofs).2) := by
  constructor
  · intro hcap hash
    constructor
    · rw [checkMissingPBs_fetch_iff s proofs hcap hash,
        ← mem_map_fst_iff_alookup_isSome]
      simp only [pendingFetchList, missingPBList]
      simp [List.mem_filter, not_or, and_assoc]
      tauto
    · intro hf
      exact (checkMissingPBs_inflight_iff s proofs hash).mpr (Or.inr hf)
  · intro hcap
    rcases checkMissingPBs_cap0 s proofs hcap with ⟨h1, h2⟩
    refine ⟨h1, ?_, ?_⟩
    · intro e he
      rw [h2] at he
      rcases List.mem_map.mp he with ⟨hash2, _, rfl⟩
      exact ⟨hash2, rfl⟩
    · intro hash hm
      rw [h2]
      exact List.mem_map.mpr ⟨hash, hm, rfl⟩

/-- C8 witness: with full precommit power for the absent block b and a free
channel slot, a fetch for b is sent and recorded; with a full channel, only
the blocked-fetch log is produced. -/
theorem C8_checkMissingPBs_spec_witness :
    (Effect.fetchRequest 2 "b" ∈
        (checkMissingPBs sampleState
          [("", SigProof.empty), ("b", sampleFullProof)]).2 ∧
      "b" ∈ (checkMissingPBs sampleState
          [("", SigProof.empty), ("b", sampleFullProof)]).1.InFlightFetchPBs) ∧
    Effect.logBlockedFetch 2 0 "b" ∈
      (checkMissingPBs { sampleState with FetchChanFree := 0 }
        [("", SigProof.empty), ("b", sampleFullProof)]).2 := by
  constructor
  · have h := (C8_checkMissingPBs_spec sampleState
      [("", SigProof.empty), ("b", sampleFullProof)]).1 (by decide) "b"
    have hf := h.1.mpr ⟨by decide, by decide, by decide, by decide, by decide⟩
    exact ⟨hf, h.2 hf⟩
  · have h := (C8_checkMissingPBs_spec { sampleState with FetchChanFree := 0 }
      [("", SigProof.empty), ("b", sampleFullProof)]).2 rfl
    exact h.2.2 "b" (by decide)

theorem checkVotingPrecommitViewShift_stuck (k : KernelCfg) (s2 : kState)
    (hstar : String)
    (hmost : s2.Voting.VRV.VoteSummary.MostVotedPrecommitHash = hstar)
    (hnn : hstar ≠ "")
    (hmaj : ByzantineMajority s2.Voting.VRV.VoteSummary.AvailablePower ≤
      getN s2.Voting.VRV.VoteSummary.PrecommitBlockPower hstar)
    (hany : (s2.Voting.VRV.ProposedBlocks.any
      (fun pb => pb.Block.Hash = hstar)) = false)
    (hcontains : s2.InFlightFetchPBs.contains hstar = true) :
    checkVotingPrecommitViewShift k s2 =
      .ok (s2, [Effect.logStuck s2.Voting.VRV.Height s2.Voting.VRV.Round hstar true]) := by
  have hnotlt : ¬ (getN s2.Voting.VRV.VoteSummary.PrecommitBlockPower
      s2.Voting.VRV.VoteSummary.MostVotedPrecommitHash <
      ByzantineMajority s2.Voting.VRV.VoteSummary.AvailablePower) := by
    rw [hmost]
    exact Nat.not_lt.mpr hmaj
  simp only [checkVotingPrecommitViewShift]
  rw [if_neg hnotlt, hmost, if_neg hnn, if_pos (by simp [hany]), hcontains]

/-- C4: when an accepted precommit batch leaves the Voting view with a
non-nil most-voted precommit hash holding at least Byzantine-majority power
while no proposed block with that hash is present, addPrecommit stays in the
current voting round -- no view shift and no commit -- logs that it is
stuck, and has ensured a fetch for the block is in flight (given a free
fetch-channel slot for every eligible hash). -/
theorem C4_addPrecommit_stuck (k : KernelCfg) (s : kState)
    (req : AddPrecommitRequest) (hstar : String)
    (hfind : s.FindView req.H req.R = .found .Voting)
    (hacc : (ingestPrecommits req.H req.R s.Voting req.PrecommitUpdates).allAccepted = true)
    (hadd : (ingestPrecommits req.H req.R s.Voting req.PrecommitUpdates).anyAdded = true)
    (hmost : (ingestPrecommits req.H req.R s.Voting
      req.PrecommitUpdates).view.VRV.VoteSummary.MostVotedPrecommitHash = hstar)
    (hnn : hstar ≠ "")
    (hmaj : ByzantineMajority (ingestPrecommits req.H req.R s.Voting
        req.PrecommitUpdates).view.VRV.VoteSummary.AvailablePower ≤
      getN (ingestPrecommits req.H req.R s.Voting
        req.PrecommitUpdates).view.VRV.VoteSummary.PrecommitBlockPower hstar)
    (havail : s.Voting.VRV.VoteSummary.AvailablePower = totalPower s.Voting.VRV.Validators)
    (hnopb : ∀ pb ∈ s.Voting.VRV.ProposedBlocks, pb.Block.Hash ≠ hstar)
    (hcap : (eligibleFetchList
        (s.setView .Voting (ingestPrecommits req.H req.R s.Voting req.PrecommitUpdates).view)
        (ingestPrecommits req.H req.R s.Voting
          req.PrecommitUpdates).view.VRV.PrecommitProofs).length ≤ s.FetchChanFree) :
    ∃ s2 effs, addPrecommit k s req = .ok (s2, effs) ∧
      s2.Voting.VRV.Height = s.Voting.VRV.Height ∧
      s2.Voting.VRV.Round = s.Voting.VRV.Round ∧
      s2.Committing = s.Committing ∧
      s2.CommittingBlock = s.CommittingBlock ∧
      s2.NilVotedRound = s.NilVotedRound ∧
      Effect.logStuck s.Voting.VRV.Height s.Voting.VRV.Round hstar true ∈ effs ∧
      hstar ∈ s2.InFlightFetchPBs := by
  have hbasic := ingestPrecommits_basic req.H req.R s.Voting req.PrecommitUpdates
  have hsummary := ingestPrecommits_summary_of_added req.H req.R s.Voting
    req.PrecommitUpdates hadd
  set ing := ingestPrecommits req.H req.R s.Voting req.PrecommitUpdates with hingdef
  set s1 := s.setView ViewID.Voting ing.view with hs1def
  set fetch := checkMissingPBs s1 ing.view.VRV.PrecommitProofs with hfetchdef
  have hframe := checkMissingPBs_frame s1 ing.view.VRV.PrecommitProofs
  have hs1voting : s1.Voting = ing.view := rfl
  have hs2voting : fetch.1.Voting = ing.view := by rw [hframe.2.1]; exact hs1voting
  -- the most-voted hash under the refreshed summary, as a raw power map fact
  have hmv : mostVotedHash (blockPowers s.Voting.VRV.Validators
      ing.view.VRV.PrecommitProofs) = hstar := by
    have h1 := hmost
    rw [hsummary] at h1
    simpa [SetPrecommitPowers] using h1
  have hkey : (alookup ing.view.VRV.PrecommitProofs hstar).isSome := by
    rw [← mem_map_fst_iff_alookup_isSome,
      ← blockPowers_keys s.Voting.VRV.Validators ing.view.VRV.PrecommitProofs,
      ← hmv]
    exact mostVotedHash_mem _ (by rw [hmv]; exact hnn)
  have hpow : ByzantineMinority (totalPower s.Voting.VRV.Validators) ≤
      getN (blockPowers s.Voting.VRV.Validators ing.view.VRV.PrecommitProofs) hstar := by
    have h2 : ing.view.VRV.VoteSummary.PrecommitBlockPower =
        blockPowers s.Voting.VRV.Validators ing.view.VRV.PrecommitProofs := by
      rw [hsummary]; rfl
    have h3 : ing.view.VRV.VoteSummary.AvailablePower =
        totalPower s.Voting.VRV.Validators := by
      rw [hsummary]
      simpa [SetPrecommitPowers] using havail
    calc ByzantineMinority (totalPower s.Voting.VRV.Validators) ≤
        ByzantineMajority (totalPower s.Voting.VRV.Validators) :=
          ByzantineMinority_le_ByzantineMajority _
      _ = ByzantineMajority ing.view.VRV.VoteSummary.AvailablePower := by rw [h3]
      _ ≤ getN ing.view.VRV.VoteSummary.PrecommitBlockPower hstar := hmaj
      _ = getN (blockPowers s.Voting.VRV.Validators ing.view.VRV.PrecommitProofs) hstar := by
          rw [h2]
  have hinflight : hstar ∈ fetch.1.InFlightFetchPBs := by
    by_cases hin : hstar ∈ s.InFlightFetchPBs
    · exact (checkMissingPBs_inflight_iff s1 ing.view.VRV.PrecommitProofs hstar).mpr
        (Or.inl hin)
    · have hmem : hstar ∈ (ing.view.VRV.PrecommitProofs).map Prod.fst :=
        (mem_map_fst_iff_alookup_isSome _ _).mpr hkey
      have hnotpb : hstar ∉
          (s1.Voting.VRV.ProposedBlocks).map (fun pb => pb.Block.Hash) := by
        rw [hs1voting, hbasic.2.2.2]
        intro hm
        rcases List.mem_map.mp hm with ⟨pb, hpb, heq⟩
        exact hnopb pb hpb heq
      have hpend : hstar ∈ pendingFetchList s1 ing.view.VRV.PrecommitProofs := by
        simp only [pendingFetchList, missingPBList, List.mem_filter,
          decide_eq_true_eq, not_or]
        refine ⟨⟨hmem, hnn, ?_⟩, ?_⟩
        · intro hcont
          exact hnotpb (List.elem_iff.mp hcont)
        · intro hcont
          exact hin (List.elem_iff.mp hcont)
      have hfetcheff : Effect.fetchRequest s1.Voting.VRV.Height hstar ∈ fetch.2 := by
        refine (checkMissingPBs_fetch_iff s1 ing.view.VRV.PrecommitProofs hcap hstar).mpr
          ⟨hpend, ?_⟩
        rw [hs1voting, hbasic.2.2.1]
        exact hpow
      exact (checkMissingPBs_inflight_iff s1 ing.view.VRV.PrecommitProofs hstar).mpr
        (Or.inr hfetcheff)
  have hcontains : fetch.1.InFlightFetchPBs.contains hstar = true :=
    List.elem_eq_true_of_mem hinflight
  have hstuck := checkVotingPrecommitViewShift_stuck k fetch.1 hstar
    (by rw [hs2voting]; exact hmost) hnn
    (by rw [hs2voting]; exact hmaj)
    (by
      rw [hs2voting, hbasic.2.2.2]
      simp only [List.any_eq_false, decide_eq_true_eq]
      exact hnopb)
    hcontains
  refine ⟨fetch.1,
    (ing.effs ++ replyEff req.HasResponse AddVoteResult.Accepted) ++ fetch.2 ++
      [Effect.logStuck fetch.1.Voting.VRV.Height fetch.1.Voting.VRV.Round hstar true],
    ?_, ?_, ?_, hframe.1, hframe.2.2.2.1, hframe.2.2.2.2.1, ?_, hinflight⟩
  · simp only [addPrecommit, hfind]
    rw [show kState.viewOf s ViewID.Voting = s.Voting from rfl]
    rw [← hingdef, hacc]
    simp only [if_pos rfl]
    rw [← hs1def, ← hfetchdef]
    simp only [ne_eq, not_true_eq_false, if_neg, ite_false]
    rw [hstuck]
    simp [List.append_assoc]
  · rw [hs2voting, hbasic.1]
  · rw [hs2voting, hbasic.2.1]
  · rw [hs2voting, hbasic.1, hbasic.2.1]
    simp

/-- C4 witness: full precommit power for the absent block b at the sample
voting view (2,0): the kernel stays at (2,0), logs stuck with a fetch in
flight, and b is recorded in InFlightFetchPBs. -/
theorem C4_addPrecommit_stuck_witness :
    ∃ s2 effs, addPrecommit ⟨1⟩ sampleState
        { H := 2, R := 0,
          PrecommitUpdates := [("b", { Proof := sampleFullProof, PrevVersion := 0 })],
          HasResponse := true } = .ok (s2, effs) ∧
      s2.Voting.VRV.Height = sampleState.Voting.VRV.Height ∧
      s2.Voting.VRV.Round = sampleState.Voting.VRV.Round ∧
      s2.Committing = sampleState.Committing ∧
      s2.CommittingBlock = sampleState.CommittingBlock ∧
      s2.NilVotedRound = sampleState.NilVotedRound ∧
      Effect.logStuck sampleState.Voting.VRV.Height sampleState.Voting.VRV.Round
        "b" true ∈ effs ∧
      "b" ∈ s2.InFlightFetchPBs :=
  C4_addPrecommit_stuck ⟨1⟩ sampleState
    { H := 2, R := 0,
      PrecommitUpdates := [("b", { Proof := sampleFullProof, PrevVersion := 0 })],
      HasResponse := true } "b"
    (by decide) (by decide) (by decide) (by decide) (by decide) (by decide)
    (by decide) (by decide) (by decide)
